import Mathlib

/-!
# Verification of the aiosipua SIP user-agent core

A shallow embedding of the aiosipua library (SIP header/message codecs, SDP
negotiation, dialog state machine, UAC/UAS request handling) together with
proofs of the specification's claims about it.

Python strings are modeled as `List Char`; Python dicts as insertion-ordered
association lists; Python functions that can raise an uncaught exception
return `Option`/`Except` values, with `none`/`.error` marking the raise.
-/

set_option maxHeartbeats 1000000

namespace Aiosipua

/-- Python strings, modeled as lists of characters. -/
abbrev Str := List Char

/-- ASCII whitespace recognized by Python `str.strip()` (the Unicode
whitespace set is not modeled; SIP tokens are ASCII). -/
def isPyWs (c : Char) : Bool :=
  c = ' ' || c = '\t' || c = '\n' || c = '\r' || c = '\x0b' || c = '\x0c'

/-- Python `s.strip()`: drop whitespace from both ends. -/
def pyStrip (s : Str) : Str :=
  ((s.dropWhile isPyWs).reverse.dropWhile isPyWs).reverse

/-- Split at the first occurrence of `c`; models Python `s.partition(c)`
guarded by `c in s` (`none` when `c` does not occur). -/
def splitFirst (c : Char) : Str → Option (Str × Str)
  | [] => none
  | x :: xs =>
    if x = c then some ([], xs)
    else
      match splitFirst c xs with
      | some (a, b) => some (x :: a, b)
      | none => none

/-- Split at the last occurrence of `c`; models Python `s.rpartition(c)`
guarded by `c in s`. -/
def splitLast (c : Char) (s : Str) : Option (Str × Str) :=
  match splitFirst c s.reverse with
  | some (a, b) => some (b.reverse, a.reverse)
  | none => none

/-- Python `s.split(c)` (no maxsplit): always returns at least one piece. -/
def pySplit (c : Char) : Str → List Str
  | [] => [[]]
  | x :: xs =>
    if x = c then [] :: pySplit c xs
    else
      match pySplit c xs with
      | p :: ps => (x :: p) :: ps
      | [] => [[x]]

/-- Whether `c` occurs in `s`; models Python `c in s`. -/
def hasChar (c : Char) (s : Str) : Bool := s.any (· = c)

/-- ASCII lowering of one character (Python `str.lower()`, ASCII subset —
exactly core's `Char.toLower`). -/
def asciiLower (c : Char) : Char := Char.toLower c

/-- ASCII lowering of a string. -/
def lowerStr (s : Str) : Str := s.map asciiLower

/-- Whether `s` starts with the character `c`. -/
def headIs (c : Char) : Str → Bool
  | [] => false
  | x :: _ => x = c

/-- ASCII digit test (codepoints 48–57). -/
def isDigitChar (c : Char) : Bool := 48 ≤ c.toNat && c.toNat ≤ 57

/-- Value of a nonempty all-digit string. -/
def digitsToNat (s : Str) : Nat := s.foldl (fun acc c => acc * 10 + (c.toNat - 48)) 0

/-- Parse a nonempty run of ASCII digits. -/
def parseNatDigits (s : Str) : Option Nat :=
  if s ≠ [] ∧ s.all isDigitChar then some (digitsToNat s) else none

/-- Model of Python `int(s)` for `str` input, with `none` for `ValueError`:
whitespace is stripped, then an optional sign and a nonempty digit run
(PEP 515 underscores and non-ASCII digits are not modeled). -/
def pyInt (s : Str) : Option Int :=
  match pyStrip s with
  | '-' :: rest => (parseNatDigits rest).map (fun n => -(n : Int))
  | '+' :: rest => (parseNatDigits rest).map (fun n => (n : Int))
  | t => (parseNatDigits t).map (fun n => (n : Int))

/-- The decimal digit character for `d < 10`. -/
def digitChar (d : Nat) : Char := Char.ofNat (48 + d)

/-- Fuel-driven digit emitter; `fuel > n` always suffices. -/
def natToStrGo : Nat → Nat → Str
  | 0, _ => []
  | fuel + 1, n =>
    if n < 10 then [digitChar n]
    else natToStrGo fuel (n / 10) ++ [digitChar (n % 10)]

/-- Decimal rendering of a natural number (Python `str` on a nonnegative int). -/
def natToStr (n : Nat) : Str := natToStrGo (n + 1) n

/-- Python `str(i)` for an int. -/
def intToStr (i : Int) : Str :=
  if i < 0 then '-' :: natToStr i.natAbs else natToStr i.toNat

/-- Join pieces with a separator character; inverse of `pySplit`. -/
def joinSep (c : Char) : List Str → Str
  | [] => []
  | [x] => x
  | x :: y :: xs => x ++ c :: joinSep c (y :: xs)

/-- Python `d[k] = v` on an insertion-ordered dict modeled as an association
list: update the value in place if the key exists, else append. -/
def dictSet {α β : Type} [DecidableEq α] (d : List (α × β)) (k : α) (v : β) :
    List (α × β) :=
  match d with
  | [] => [(k, v)]
  | (k0, v0) :: rest => if k0 = k then (k0, v) :: rest else (k0, v0) :: dictSet rest k v

/-- Python `d.get(k)` on an insertion-ordered dict. -/
def dictFind {α β : Type} [DecidableEq α] (d : List (α × β)) (k : α) : Option β :=
  (d.find? (fun kv => kv.1 == k)).map (·.2)

/-! ## The `SipUri` record and its codec (headers.py) -/

/-- `SipUri` dataclass from headers.py.  `params` and `headers` are Python
dicts, modeled as insertion-ordered association lists. -/
structure SipUri where
  scheme : Str := "sip".data
  user : Option Str := none
  host : Str := []
  port : Option Int := none
  params : List (Str × Option Str) := []
  headers : List (Str × Str) := []
deriving Repr, DecidableEq

/-- One step of the `parse_params` loop. -/
def paramStep (acc : List (Str × Option Str)) (part0 : Str) :
    List (Str × Option Str) :=
  let part := pyStrip part0
  if part = [] then acc
  else
    match splitFirst '=' part with
    | some (k, v) => dictSet acc (lowerStr (pyStrip k)) (some (pyStrip v))
    | none => dictSet acc (lowerStr part) none

/-- `parse_params` from headers.py. -/
def parseParams (s : Str) : List (Str × Option Str) :=
  (pySplit ';' s).foldl paramStep []

/-- The scheme step of `parse_uri`: split at the first `:`; keep a lowered
`sip`/`sips` scheme, else default to `sip` with the whole string as
remainder. -/
def uriSchemeSplit (s : Str) : Str × Str :=
  match splitFirst ':' s with
  | some (pre, post) =>
      if lowerStr pre = "sip".data ∨ lowerStr pre = "sips".data then
        (lowerStr pre, post)
      else ("sip".data, s)
  | none => ("sip".data, s)

/-- One step of the URI-header loop of `parse_uri`. -/
def hdrStep (acc : List (Str × Str)) (hdr : Str) : List (Str × Str) :=
  match splitFirst '=' hdr with
  | some (hk, hv) => dictSet acc hk hv
  | none => acc

/-- The URI-header dict built by `parse_uri` from the part after `?`. -/
def uriHeadersOf (headerPart : Str) : List (Str × Str) :=
  (pySplit '&' headerPart).foldl hdrStep []

/-- The `?` step of `parse_uri`. -/
def uriHeaderSplit (rest : Str) : Str × List (Str × Str) :=
  match splitFirst '?' rest with
  | some (pre, headerPart) => (pre, uriHeadersOf headerPart)
  | none => (rest, [])

/-- The `;` step of `parse_uri`. -/
def uriParamSplit (rest : Str) : Str × List (Str × Option Str) :=
  match splitFirst ';' rest with
  | some (pre, paramStr) => (pre, parseParams paramStr)
  | none => (rest, [])

/-- The `@` step of `parse_uri`. -/
def uriUserSplit (base : Str) : Option Str × Str :=
  match splitFirst '@' base with
  | some (u, hp) => (some u, hp)
  | none => (none, base)

/-- What the bracketed-IPv6 branch of `parse_uri` does with the text after
`]`. -/
def bracketPost (pre post : Str) : Option (Str × Option Int) :=
  match post with
  | c :: portStr =>
      if c = ':' then (pyInt portStr).map (fun n => (pre ++ [']'], some n))
      else some (pre ++ [']'], (none : Option Int))
  | [] => some (pre ++ [']'], (none : Option Int))

/-- The host/port step of `parse_uri`; `none` is the uncaught `ValueError`
of the bracketed-IPv6 branch. -/
def uriHostPort (hostport : Str) : Option (Str × Option Int) :=
  if headIs '[' hostport then
    match splitFirst ']' hostport with
    | some (pre, post) => bracketPost pre post
    | none => some (hostport, none)
  else if hasChar ':' hostport then
    match splitLast ':' hostport with
    | some (hostPart, portPart) =>
        match pyInt portPart with
        | some n => some (hostPart, some n)
        | none => some (hostport, none)
    | none => some (hostport, none)
  else some (hostport, none)

/-- `parse_uri` from headers.py as the composition of its steps.  Returns
`none` exactly where Python raises an uncaught `ValueError` (malformed port
after a bracketed IPv6 host). -/
def parseUri (s0 : Str) : Option SipUri := do
  let s := pyStrip s0
  let (scheme, rest) := uriSchemeSplit s
  let (rest1, uriHeaders) := uriHeaderSplit rest
  let (base, params) := uriParamSplit rest1
  let (user, hostport) := uriUserSplit base
  let (host, port) ← uriHostPort hostport
  pure { scheme := scheme, user := user, host := host, port := port,
         params := params, headers := uriHeaders }

/-- One `;k=v` / `;k` piece of `stringify_uri` (without the `;`). -/
def paramPiece : Str × Option Str → Str
  | (k, some v) => k ++ '=' :: v
  | (k, none) => k

/-- One `k=v` URI-header piece of `stringify_uri`. -/
def headerPiece (kv : Str × Str) : Str := kv.1 ++ '=' :: kv.2

/-- The `user@` part of `stringify_uri`. -/
def userEmit : Option Str → Str
  | some us => us ++ ['@']
  | none => []

/-- The `:port` part of `stringify_uri`. -/
def portEmit : Option Int → Str
  | some n => ':' :: intToStr n
  | none => []

/-- The `;k=v;k` part of `stringify_uri`. -/
def paramsEmit (ps : List (Str × Option Str)) : Str :=
  ps.foldl (fun acc kv => acc ++ ';' :: paramPiece kv) []

/-- The `?k=v&k=v` part of `stringify_uri`. -/
def headersEmit (hs : List (Str × Str)) : Str :=
  if hs = [] then [] else '?' :: joinSep '&' (hs.map headerPiece)

/-- `stringify_uri` from headers.py. -/
def stringifyUri (u : SipUri) : Str :=
  u.scheme ++ [':'] ++ userEmit u.user ++ u.host ++ portEmit u.port
    ++ paramsEmit u.params ++ headersEmit u.headers

example :
    parseUri "sip:alice@example.com:5060;transport=tcp".data =
      some { scheme := "sip".data, user := some "alice".data, host := "example.com".data,
             port := some 5060, params := [("transport".data, some "tcp".data)],
             headers := [] } := by decide

example : parseUri "sip:[::1]:junk".data = none := by decide

example :
    (parseUri "sip:h?b=1&a=2 &b=3".data).bind (fun u => parseUri (stringifyUri u)) ≠
      parseUri "sip:h?b=1&a=2 &b=3".data := by decide

/-! ## Addresses, Via, CSeq (headers.py) -/

/-- `Address` dataclass from headers.py. -/
structure Address where
  display_name : Option Str := none
  uri : SipUri := {}
  params : List (Str × Option Str) := []
deriving Repr, DecidableEq

/-- The `tag` parameter of an `Address` (the `Address.tag` property). -/
def Address.tag (a : Address) : Option Str :=
  match a.params.find? (fun kv => kv.1 == "tag".data) with
  | some kv => kv.2
  | none => none

/-- Index of the first occurrence of `c`, models Python `s.find(c)` with
`none` for `-1`. -/
def pyFind (c : Char) (s : Str) : Option Nat := s.findIdx? (· = c)

/-- ASCII uppering of one character (Python `str.upper()`, ASCII subset —
exactly core's `Char.toUpper`). -/
def asciiUpper (c : Char) : Char := Char.toUpper c

/-- Python `s.split(None, 1)`: split on whitespace runs, at most once. -/
def pySplitWs1 (s : Str) : List Str :=
  let t := s.dropWhile isPyWs
  if t = [] then []
  else
    let tok := t.takeWhile (fun c => !isPyWs c)
    let rest := ((t.dropWhile (fun c => !isPyWs c)).dropWhile isPyWs)
    if rest = [] then [tok] else [tok, rest]

/-- Python `s.split()`: split on whitespace runs, dropping empty pieces.
`cur` accumulates the current token in reverse. -/
def pySplitWsGo (cur : Str) : Str → List Str
  | [] => if cur = [] then [] else [cur.reverse]
  | c :: rest =>
    if isPyWs c then
      if cur = [] then pySplitWsGo [] rest else cur.reverse :: pySplitWsGo [] rest
    else pySplitWsGo (c :: cur) rest

/-- Python `s.split()` (whitespace split without empties). -/
def pySplitWs (s : Str) : List Str := pySplitWsGo [] s

/-- `parse_address` from headers.py.  `none` models an uncaught exception
raised by the nested `parse_uri`. -/
def parseAddress (s0 : Str) : Option Address := do
  let s := pyStrip s0
  match pyFind '<' s, pyFind '>' s with
  | some lt, some gt =>
    if lt < gt then do
      let display0 := pyStrip (s.take lt)
      let display :=
        if headIs '\"' display0 && headIs '\"' display0.reverse then
          (display0.drop 1).dropLast
        else display0
      let uriStr := (s.drop (lt + 1)).take (gt - (lt + 1))
      let uri ← parseUri uriStr
      let after := pyStrip (s.drop (gt + 1))
      let params := if headIs ';' after then parseParams (after.drop 1) else []
      pure { display_name := if display = [] then none else some display,
             uri := uri, params := params }
    else parseAddrSpec s
  | _, _ => parseAddrSpec s
where
  /-- The addr-spec branch of `parse_address`: split URI params from the
  known address-level params (currently just `tag`) by key. -/
  parseAddrSpec (s : Str) : Option Address := do
    if hasChar ';' s then
      let parts := pySplit ';' s
      let first := parts.headD []
      let restParts := parts.tail
      let split := restParts.foldl
        (fun (acc : List Str × List Str) part =>
          let stripped := pyStrip part
          let key :=
            match splitFirst '=' stripped with
            | some (k, _) => lowerStr k
            | none => lowerStr stripped
          if key = "tag".data then (acc.1, acc.2 ++ [stripped])
          else (acc.1 ++ [part], acc.2))
        ([first], [])
      let uri ← parseUri (joinSep ';' split.1)
      let params := if split.2 ≠ [] then parseParams (joinSep ';' split.2) else []
      pure { display_name := none, uri := uri, params := params }
    else do
      let uri ← parseUri s
      pure { display_name := none, uri := uri, params := [] }

/-- `stringify_address` from headers.py. -/
def stringifyAddress (a : Address) : Str :=
  let uriStr := stringifyUri a.uri
  let base :=
    match a.display_name with
    | some d =>
        if d = [] then '<' :: uriStr ++ ['>'] -- an empty display name is falsy
        else '\"' :: d ++ "\" <".data ++ uriStr ++ ['>']
    | none => '<' :: uriStr ++ ['>']
  a.params.foldl
    (fun acc kv =>
      match kv with
      | (k, some v) => acc ++ ';' :: (k ++ '=' :: v)
      | (k, none) => acc ++ ';' :: k)
    base

/-- `Via` dataclass from headers.py. -/
structure ViaVal where
  protocol : Str := "SIP/2.0".data
  transport : Str := "UDP".data
  host : Str := []
  port : Option Int := none
  params : List (Str × Option Str) := []
deriving Repr, DecidableEq

/-- `stringify_via` from headers.py. -/
def stringifyVia (v : ViaVal) : Str :=
  v.protocol ++ '/' :: v.transport ++ ' ' :: v.host
    ++ (match v.port with | some n => ':' :: intToStr n | none => [])
    ++ (v.params.foldl
          (fun acc kv =>
            match kv with
            | (k, some val) => acc ++ ';' :: (k ++ '=' :: val)
            | (k, none) => acc ++ ';' :: k)
          [])

/-- `CSeq` dataclass from headers.py. -/
structure CSeqVal where
  seq : Int := 0
  method : Str := []
deriving Repr, DecidableEq

/-- `parse_cseq` from headers.py; `none` models the uncaught `ValueError`
from `int()` on a malformed sequence number. -/
def parseCseq (s0 : Str) : Option CSeqVal :=
  let s := pyStrip s0
  match pySplitWs1 s with
  | [a, b] => (pyInt a).map (fun n => { seq := n, method := b })
  | _ => some {}

/-- `stringify_cseq` from headers.py. -/
def stringifyCseq (c : CSeqVal) : Str := intToStr c.seq ++ ' ' :: c.method

/-! ## The case-insensitive header multi-map (headers.py) -/

/-- One entry of `CaseInsensitiveDict`: lowered key, first-seen original
casing, and the ordered value list.  The Python class keeps `_store` and
`_original` dicts over an identical key set; the two are fused here. -/
structure HEntry where
  key : Str
  orig : Str
  values : List Str
deriving Repr, DecidableEq

/-- The header multi-map. -/
abbrev HDict := List HEntry

/-- `CaseInsensitiveDict.get`. -/
def hdGet (d : HDict) (name : Str) : List Str :=
  match d.find? (fun e => e.key == lowerStr name) with
  | some e => e.values
  | none => []

/-- `CaseInsensitiveDict.get_first` (with `default=None`); an entry whose
value list is empty is falsy in Python and also yields `none`. -/
def hdGetFirst (d : HDict) (name : Str) : Option Str :=
  match hdGet d name with
  | v :: _ => some v
  | [] => none

/-- `CaseInsensitiveDict.set_single`: replace all values, record new casing. -/
def hdSetSingle (d : HDict) (name value : Str) : HDict :=
  match d with
  | [] => [⟨lowerStr name, name, [value]⟩]
  | e :: rest =>
    if e.key = lowerStr name then ⟨e.key, name, [value]⟩ :: rest
    else e :: hdSetSingle rest name value

/-- `CaseInsensitiveDict.append`: append a value, keep first-seen casing. -/
def hdAppend (d : HDict) (name value : Str) : HDict :=
  match d with
  | [] => [⟨lowerStr name, name, [value]⟩]
  | e :: rest =>
    if e.key = lowerStr name then ⟨e.key, e.orig, e.values ++ [value]⟩ :: rest
    else e :: hdAppend rest name value

/-- `name in dict` (the `__contains__` method). -/
def hdContains (d : HDict) (name : Str) : Bool :=
  d.any (fun e => e.key == lowerStr name)

/-- The invariant every Python-built `CaseInsensitiveDict` satisfies: keys
are pairwise distinct and each key is the lowering of its stored casing. -/
def HOk (d : HDict) : Prop :=
  (d.map HEntry.key).Nodup ∧ ∀ e ∈ d, e.key = lowerStr e.orig

/-! ## SIP messages (message.py) -/

/-- Request/response discriminant of `SipMessage` (the `SipRequest` and
`SipResponse` subclasses). -/
inductive StartLine
  | request (method : Str) (uri : Str)
  | response (statusCode : Int) (reasonPhrase : Str)
deriving Repr, DecidableEq

/-- `SipMessage` from message.py. -/
structure SipMessage where
  start : StartLine
  headers : HDict := []
  body : Str := []
deriving Repr, DecidableEq

/-- The canonical-casing table `_PRETTY_NAMES` from headers.py. -/
def prettyNames : List (Str × Str) :=
  [("accept".data, "Accept".data),
   ("accept-encoding".data, "Accept-Encoding".data),
   ("accept-language".data, "Accept-Language".data),
   ("alert-info".data, "Alert-Info".data),
   ("allow".data, "Allow".data),
   ("authentication-info".data, "Authentication-Info".data),
   ("authorization".data, "Authorization".data),
   ("call-id".data, "Call-ID".data),
   ("call-info".data, "Call-Info".data),
   ("contact".data, "Contact".data),
   ("content-disposition".data, "Content-Disposition".data),
   ("content-encoding".data, "Content-Encoding".data),
   ("content-language".data, "Content-Language".data),
   ("content-length".data, "Content-Length".data),
   ("content-type".data, "Content-Type".data),
   ("cseq".data, "CSeq".data),
   ("date".data, "Date".data),
   ("error-info".data, "Error-Info".data),
   ("event".data, "Event".data),
   ("expires".data, "Expires".data),
   ("from".data, "From".data),
   ("in-reply-to".data, "In-Reply-To".data),
   ("max-forwards".data, "Max-Forwards".data),
   ("mime-version".data, "MIME-Version".data),
   ("min-expires".data, "Min-Expires".data),
   ("organization".data, "Organization".data),
   ("path".data, "Path".data),
   ("priority".data, "Priority".data),
   ("proxy-authenticate".data, "Proxy-Authenticate".data),
   ("proxy-authorization".data, "Proxy-Authorization".data),
   ("proxy-require".data, "Proxy-Require".data),
   ("record-route".data, "Record-Route".data),
   ("refer-to".data, "Refer-To".data),
   ("reply-to".data, "Reply-To".data),
   ("require".data, "Require".data),
   ("retry-after".data, "Retry-After".data),
   ("route".data, "Route".data),
   ("server".data, "Server".data),
   ("subject".data, "Subject".data),
   ("supported".data, "Supported".data),
   ("timestamp".data, "Timestamp".data),
   ("to".data, "To".data),
   ("unsupported".data, "Unsupported".data),
   ("user-agent".data, "User-Agent".data),
   ("via".data, "Via".data),
   ("warning".data, "Warning".data),
   ("www-authenticate".data, "WWW-Authenticate".data)]

/-- Python `str.capitalize()`: upper the first character, lower the rest. -/
def pyCapitalize (s : Str) : Str :=
  match s with
  | [] => []
  | c :: cs => asciiUpper c :: lowerStr cs

/-- `prettify_header_name` from headers.py: canonical casing from the fixed
table, Title-Case fallback for unknown names. -/
def prettifyHeaderName (name : Str) : Str :=
  match prettyNames.find? (fun kv => kv.1 == lowerStr name) with
  | some kv => kv.2
  | none => joinSep '-' ((pySplit '-' name).map pyCapitalize)

/-- Join pieces with a separator string. -/
def joinStr (sep : Str) : List Str → Str
  | [] => []
  | [x] => x
  | x :: y :: xs => x ++ sep ++ joinStr sep (y :: xs)

/-- UTF-8 byte length of a string (`len(s.encode("utf-8"))`). -/
def utf8Len (s : Str) : Nat := (s.map Char.utf8Size).sum

/-- The start line emitted by `SipRequest._start_line` /
`SipResponse._start_line`. -/
def startLineStr : StartLine → Str
  | .request m u => m ++ ' ' :: (u ++ " SIP/2.0".data)
  | .response c r => "SIP/2.0 ".data ++ intToStr c ++ ' ' :: r

/-- The `(prettified name, value)` pairs emitted by `SipMessage.serialize`
for a given header dict, in emission order. -/
def msgHeaderPairs (d : HDict) : List (Str × Str) :=
  (d.map (fun e => e.values.map (fun v => (prettifyHeaderName e.orig, v)))).flatten

/-- `SipMessage.serialize` from message.py.  Returns the mutated message
(Content-Length is overwritten in the header map) together with the wire
string. -/
def serializeMsg (m : SipMessage) : SipMessage × Str :=
  let bodyLen := utf8Len m.body
  let headers := hdSetSingle m.headers "Content-Length".data (natToStr bodyLen)
  let lines := startLineStr m.start ::
    (msgHeaderPairs headers).map (fun p => p.1 ++ ": ".data ++ p.2) ++ [[]]
  let out := joinStr "\r\n".data lines
    ++ (if m.body ≠ [] then "\r\n".data ++ m.body else "\r\n".data)
  ({ m with headers := headers }, out)

/-- `SipMessage.call_id` property. -/
def msgCallId (m : SipMessage) : Option Str := hdGetFirst m.headers "call-id".data

/-- `SipMessage.content_type` property. -/
def msgContentType (m : SipMessage) : Option Str :=
  hdGetFirst m.headers "content-type".data

/-- `SipMessage.from_addr` property.  The outer `some` is absence of a raise;
the inner option is Python `None` for a missing or empty From header. -/
def msgFromAddr (m : SipMessage) : Option (Option Address) :=
  match hdGetFirst m.headers "from".data with
  | some raw => if raw = [] then some none else (parseAddress raw).map some
  | none => some none

/-- `SipMessage.to_addr` property. -/
def msgToAddr (m : SipMessage) : Option (Option Address) :=
  match hdGetFirst m.headers "to".data with
  | some raw => if raw = [] then some none else (parseAddress raw).map some
  | none => some none

/-- `SipMessage.cseq` property. -/
def msgCseqProp (m : SipMessage) : Option (Option CSeqVal) :=
  match hdGetFirst m.headers "cseq".data with
  | some raw => if raw = [] then some none else (parseCseq raw).map some
  | none => some none

/-- `SipMessage.contact` property: all Contact values parsed as addresses. -/
def msgContact (m : SipMessage) : Option (List Address) :=
  (hdGet m.headers "contact".data).mapM parseAddress

/-- The request-URI of a request message (`SipRequest.uri`). -/
def reqUri (m : SipMessage) : Str :=
  match m.start with
  | .request _ u => u
  | .response _ _ => []

/-! ## Dialogs (dialog.py) -/

/-- Whether `n` is a prefix of `h` (helper for Python `in` on strings). -/
def strTakes : Str → Str → Bool
  | [], _ => true
  | _ :: _, [] => false
  | c :: ns, h :: hs => c = h && strTakes ns hs

/-- Python `needle in haystack` for strings: contiguous substring test. -/
def isSubstr : Str → Str → Bool
  | n, [] => n.isEmpty
  | n, h :: hs => strTakes n (h :: hs) || isSubstr n hs

/-- `DialogState` from dialog.py. -/
inductive DialogState
  | early
  | confirmed
  | terminated
deriving Repr, DecidableEq

/-- The `value` of a `DialogState` enum member. -/
def DialogState.value : DialogState → Str
  | .early => "early".data
  | .confirmed => "confirmed".data
  | .terminated => "terminated".data

/-- `Dialog` dataclass from dialog.py (the unused `metadata` dict is
omitted). -/
structure Dialog where
  call_id : Str := []
  local_tag : Str := []
  remote_tag : Str := []
  local_uri : Str := []
  remote_uri : Str := []
  remote_target : Str := []
  route_set : List Str := []
  local_cseq : Int := 0
  remote_cseq : Int := 0
  state : DialogState := .early
deriving Repr, DecidableEq

/-- `Dialog.confirm`: EARLY → CONFIRMED, no-op otherwise. -/
def Dialog.confirm (d : Dialog) : Dialog :=
  if d.state = .early then { d with state := .confirmed } else d

/-- `Dialog.terminate`. -/
def Dialog.terminate (d : Dialog) : Dialog := { d with state := .terminated }

/-- `_default_reason` from dialog.py. -/
def defaultReason (statusCode : Int) : Str :=
  if statusCode = 100 then "Trying".data
  else if statusCode = 180 then "Ringing".data
  else if statusCode = 183 then "Session Progress".data
  else if statusCode = 200 then "OK".data
  else if statusCode = 400 then "Bad Request".data
  else if statusCode = 401 then "Unauthorized".data
  else if statusCode = 403 then "Forbidden".data
  else if statusCode = 404 then "Not Found".data
  else if statusCode = 405 then "Method Not Allowed".data
  else if statusCode = 408 then "Request Timeout".data
  else if statusCode = 480 then "Temporarily Unavailable".data
  else if statusCode = 481 then "Call/Transaction Does Not Exist".data
  else if statusCode = 486 then "Busy Here".data
  else if statusCode = 487 then "Request Terminated".data
  else if statusCode = 488 then "Not Acceptable Here".data
  else if statusCode = 500 then "Server Internal Error".data
  else if statusCode = 503 then "Service Unavailable".data
  else if statusCode = 603 then "Decline".data
  else []

/-- `Dialog.create_request` from dialog.py.  `branch` models the fresh
`generate_branch()` value.  Returns the dialog with its incremented
`local_cseq` together with the request. -/
def createRequest (d : Dialog) (method : Str) (via_host : Str) (via_port : Int)
    (via_transport : Str) (branch : Str) : Dialog × SipMessage :=
  let d1 := { d with local_cseq := d.local_cseq + 1 }
  let cseqNum := d1.local_cseq
  let uri := if d.remote_target ≠ [] then d.remote_target else d.remote_uri
  let via : ViaVal :=
    { transport := via_transport, host := via_host, port := some via_port,
      params := [("branch".data, some branch)] }
  let h1 := hdAppend [] "Via".data (stringifyVia via)
  let h2 := hdSetSingle h1 "From".data ('<' :: d.local_uri ++ ">;tag=".data ++ d.local_tag)
  let toVal := '<' :: d.remote_uri ++ ['>']
    ++ (if d.remote_tag ≠ [] then ";tag=".data ++ d.remote_tag else [])
  let h3 := hdSetSingle h2 "To".data toVal
  let h4 := hdSetSingle h3 "Call-ID".data d.call_id
  let h5 := hdSetSingle h4 "CSeq".data (stringifyCseq { seq := cseqNum, method := method })
  let h6 := hdSetSingle h5 "Max-Forwards".data "70".data
  let h7 := d.route_set.foldl (fun acc r => hdAppend acc "Route".data r) h6
  (d1, { start := .request method uri, headers := h7, body := [] })

/-- `Dialog.create_response` from dialog.py: copy Via/From/To/CSeq from the
request, Call-ID from the dialog, append the local tag to To when absent. -/
def createResponse (d : Dialog) (request : SipMessage) (statusCode : Int)
    (reasonPhrase : Str) (contact : Option Str) : SipMessage :=
  let reason := if reasonPhrase = [] then defaultReason statusCode else reasonPhrase
  let h1 := (hdGet request.headers "via".data).foldl
    (fun acc v => hdAppend acc "Via".data v) []
  let h2 :=
    match hdGetFirst request.headers "from".data with
    | some fv => if fv = [] then h1 else hdSetSingle h1 "From".data fv
    | none => h1
  let h3 :=
    match hdGetFirst request.headers "to".data with
    | some tv =>
        if tv = [] then h2
        else
          let tv2 :=
            if d.local_tag ≠ [] ∧ ¬ isSubstr ("tag=".data ++ d.local_tag) tv then
              tv ++ ';' :: ("tag=".data ++ d.local_tag)
            else tv
          hdSetSingle h2 "To".data tv2
    | none => h2
  let h4 := hdSetSingle h3 "Call-ID".data d.call_id
  let h5 :=
    match hdGetFirst request.headers "cseq".data with
    | some cv => if cv = [] then h4 else hdSetSingle h4 "CSeq".data cv
    | none => h4
  let h6 :=
    match contact with
    | some c => if c = [] then h5 else hdSetSingle h5 "Contact".data c
    | none => h5
  { start := .response statusCode reason, headers := h6, body := [] }

/-- `create_dialog_from_request` from dialog.py.  `local_tag` models the
caller-supplied tag or the fresh `generate_tag()` value; `none` models an
uncaught exception from nested header parsing. -/
def createDialogFromRequest (request : SipMessage) (local_tag : Str)
    (local_uri? : Option Str) : Option Dialog := do
  let fromAddr ← msgFromAddr request
  let remote_tag :=
    match fromAddr with
    | some fa => fa.tag.getD []
    | none => []
  let remote_uri :=
    match fromAddr with
    | some fa => stringifyUri fa.uri
    | none => []
  let local_uri ←
    match local_uri? with
    | some lu => pure lu
    | none => do
        let toAddr ← msgToAddr request
        match toAddr with
        | some ta => pure (stringifyUri ta.uri)
        | none => pure (reqUri request)
  let contacts ← msgContact request
  let remote_target :=
    match contacts with
    | c :: _ => stringifyUri c.uri
    | [] => []
  let route_set := (hdGet request.headers "record-route".data).reverse
  let cseq ← msgCseqProp request
  let remote_cseq :=
    match cseq with
    | some c => c.seq
    | none => 1
  pure { call_id := (msgCallId request).getD [], local_tag := local_tag,
         remote_tag := remote_tag, local_uri := local_uri,
         remote_uri := remote_uri, remote_target := remote_target,
         route_set := route_set, local_cseq := 0, remote_cseq := remote_cseq,
         state := .early }

/-! ## SDP model and negotiation (sdp.py) -/

/-- SDP `o=` field. -/
structure Origin where
  username : Str := "-".data
  session_id : Str := "0".data
  session_version : Str := "0".data
  net_type : Str := "IN".data
  addr_type : Str := "IP4".data
  address : Str := "0.0.0.0".data
deriving Repr, DecidableEq

/-- SDP `c=` field. -/
structure ConnectionData where
  net_type : Str := "IN".data
  addr_type : Str := "IP4".data
  address : Str := "0.0.0.0".data
deriving Repr, DecidableEq

/-- SDP `b=` field. -/
structure Bandwidth where
  bwtype : Str := "AS".data
  bandwidth : Int := 0
deriving Repr, DecidableEq

/-- SDP `t=` field. -/
structure TimingField where
  start_time : Int := 0
  stop_time : Int := 0
deriving Repr, DecidableEq

/-- A codec extracted from rtpmap/fmtp attributes. -/
structure Codec where
  payload_type : Int := 0
  encoding_name : Str := []
  clock_rate : Int := 0
  channels : Option Int := none
  fmtp : Option Str := none
deriving Repr, DecidableEq

/-- Attribute multi-map of an SDP section (`dict[str, list[str]]`). -/
abbrev Attrs := List (Str × List Str)

/-- `attrs.get(k, [])`. -/
def attrsGet (a : Attrs) (k : Str) : List Str :=
  match a.find? (fun kv => kv.1 == k) with
  | some kv => kv.2
  | none => []

/-- `attrs.setdefault(k, []).append(v)`. -/
def attrsAppend (a : Attrs) (k : Str) (v : Str) : Attrs :=
  match a with
  | [] => [(k, [v])]
  | (k0, vs) :: rest =>
    if k0 = k then (k0, vs ++ [v]) :: rest else (k0, vs) :: attrsAppend rest k v

/-- `attrs.setdefault(k, [])` used as a flag marker. -/
def attrsFlag (a : Attrs) (k : Str) : Attrs :=
  if a.any (fun kv => kv.1 == k) then a else a ++ [(k, [])]

/-- SDP `m=` section and its associated fields. -/
structure MediaDescription where
  media : Str := []
  port : Int := 0
  proto : Str := "RTP/AVP".data
  formats : List Str := []
  connection : Option ConnectionData := none
  bandwidths : List Bandwidth := []
  attributes : Attrs := []
  codecs : List Codec := []
deriving Repr, DecidableEq

/-- The `MediaDescription.direction` property: first of the four direction
flags present in the attributes, defaulting to sendrecv. -/
def mdDirection (m : MediaDescription) : Str :=
  if m.attributes.any (fun kv => kv.1 == "sendrecv".data) then "sendrecv".data
  else if m.attributes.any (fun kv => kv.1 == "sendonly".data) then "sendonly".data
  else if m.attributes.any (fun kv => kv.1 == "recvonly".data) then "recvonly".data
  else if m.attributes.any (fun kv => kv.1 == "inactive".data) then "inactive".data
  else "sendrecv".data

/-- A complete SDP session description. -/
structure SdpMessage where
  version : Int := 0
  origin : Origin := {}
  session_name : Str := " ".data
  connection : Option ConnectionData := none
  bandwidths : List Bandwidth := []
  timing : TimingField := {}
  attributes : Attrs := []
  media : List MediaDescription := []
deriving Repr, DecidableEq

/-- The `SdpMessage.audio` property: first audio media section. -/
def sdpAudio (s : SdpMessage) : Option MediaDescription :=
  s.media.find? (fun m => m.media == "audio".data)

/-- `_WELL_KNOWN_CODECS` from sdp.py: `(name, clock rate, channels)` for the
static RTP payload types of RFC 3551. -/
def wellKnownCodec (pt : Int) : Option (Str × Int × Option Int) :=
  if pt = 0 then some ("PCMU".data, 8000, some 1)
  else if pt = 3 then some ("GSM".data, 8000, some 1)
  else if pt = 4 then some ("G723".data, 8000, some 1)
  else if pt = 8 then some ("PCMA".data, 8000, some 1)
  else if pt = 9 then some ("G722".data, 8000, some 1)
  else if pt = 18 then some ("G729".data, 8000, some 1)
  else none

/-- `_DIRECTION_ANSWER.get(d, "sendrecv")` from sdp.py (RFC 3264 §6.1). -/
def directionAnswer (d : Str) : Str :=
  if d = "sendrecv".data then "sendrecv".data
  else if d = "sendonly".data then "recvonly".data
  else if d = "recvonly".data then "sendonly".data
  else if d = "inactive".data then "inactive".data
  else "sendrecv".data

/-- The rtpmap pass of `_extract_codecs`: parse `a=rtpmap` values into a
payload-type-keyed dict.  `none` models a `ValueError` from `int()`. -/
def extractRtpmaps (vals : List Str) : Option (List (Int × Codec)) :=
  vals.foldlM
    (fun acc val =>
      match splitFirst ' ' val with
      | none => some acc
      | some (ptStr, encodingPart) => do
          let pt ← pyInt ptStr
          let parts := pySplit '/' encodingPart
          let c0 : Codec := { payload_type := pt, encoding_name := parts.headD [] }
          let c ←
            match parts with
            | _ :: rateStr :: rest => do
                let rate ← pyInt rateStr
                match rest with
                | chStr :: _ => do
                    let ch ← pyInt chStr
                    pure { c0 with clock_rate := rate, channels := some ch }
                | [] => pure { c0 with clock_rate := rate }
            | _ => pure c0
          pure (dictSet acc pt c))
    []

/-- The fmtp pass of `_extract_codecs`: attach fmtp strings to codecs
already present in the rtpmap dict. -/
def applyFmtps (rtpmaps : List (Int × Codec)) (vals : List Str) :
    Option (List (Int × Codec)) :=
  vals.foldlM
    (fun acc val =>
      match splitFirst ' ' val with
      | none => some acc
      | some (ptStr, fmtpStr) =>
          (pyInt ptStr).map (fun pt =>
            match dictFind acc pt with
            | some c => dictSet acc pt { c with fmtp := some fmtpStr }
            | none => acc))
    rtpmaps

/-- `_extract_codecs` from sdp.py: ordered codec list for a media section.
`none` models an uncaught `ValueError` (format-list `int()` failures are
caught and skipped, matching the `try/except` in the source). -/
def extractCodecs (m : MediaDescription) : Option (List Codec) := do
  let rtpmaps ← extractRtpmaps (attrsGet m.attributes "rtpmap".data)
  let rtpmaps ← applyFmtps rtpmaps (attrsGet m.attributes "fmtp".data)
  pure (m.formats.foldl
    (fun acc fmt =>
      match pyInt fmt with
      | none => acc
      | some pt =>
          match dictFind rtpmaps pt with
          | some c => acc ++ [c]
          | none =>
              match wellKnownCodec pt with
              | some (name, rate, ch) =>
                  acc ++ [{ payload_type := pt, encoding_name := name,
                            clock_rate := rate, channels := ch }]
              | none => acc ++ [{ payload_type := pt }])
    [])

/-- Errors out of `negotiate_sdp`: the declared `SdpNegotiationError` (only
its fixed message text is modeled, not the interpolated codec lists) and the
undeclared `ValueError` escaping from `_extract_codecs`. -/
inductive NegErr
  | sdpNegotiationError (msg : Str)
  | valueError
deriving Repr, DecidableEq

/-- The ptime step of `negotiate_sdp`: prefer the offer's `a=ptime` value,
falling back to the default on a missing attribute or `ValueError`
(`contextlib.suppress`). -/
def answerPtimeOf (offerAudio : MediaDescription) (ptime : Int) : Int :=
  match attrsGet offerAudio.attributes "ptime".data with
  | v :: _ => (pyInt v).getD ptime
  | [] => ptime

/-- The rtpmap name/rate step of `negotiate_sdp`: `chosen.clock_rate or
8000`, and the static-table fill-in when the chosen codec has no
encoding name. -/
def chosenNameRate (chosen : Codec) : Str × Int :=
  let codecRate0 := if chosen.clock_rate ≠ 0 then chosen.clock_rate else 8000
  if chosen.encoding_name = [] then
    match wellKnownCodec chosen.payload_type with
    | some (nm, rt, _) => (nm, rt)
    | none => (chosen.encoding_name, codecRate0)
  else (chosen.encoding_name, codecRate0)

/-- The telephone-event scan of `negotiate_sdp`. -/
def offerDtmfPtOf (offerAudio : MediaDescription) : Option Int :=
  (offerAudio.codecs.find?
    (fun c => lowerStr c.encoding_name == "telephone-event".data)).map
    (·.payload_type)

/-- `negotiate_sdp` from sdp.py.  `now` models `str(int(time.time()))`, used
only when `session_id` is `None`. -/
def negotiateSdp (offer : SdpMessage) (local_ip : Str) (rtp_port : Int)
    (supported_codecs : Option (List Int)) (dtmf_payload_type : Int)
    (ptime : Int) (session_id : Option Str) (now : Str) :
    Except NegErr (SdpMessage × Int) := do
  let supported := supported_codecs.getD [0, 8]
  let sid := session_id.getD now
  let offerAudio ←
    match sdpAudio offer with
    | some a => pure a
    | none => throw (.sdpNegotiationError "Offer contains no audio media".data)
  let chosen ←
    match offerAudio.codecs.find? (fun c => supported.contains c.payload_type) with
    | some c => pure c
    | none => throw (.sdpNegotiationError "No matching codec found".data)
  let offerDtmfPt : Option Int := offerDtmfPtOf offerAudio
  let answerPtime := answerPtimeOf offerAudio ptime
  let answerDirection := directionAnswer (mdDirection offerAudio)
  let codecName := (chosenNameRate chosen).1
  let codecRate := (chosenNameRate chosen).2
  let includeDtmf := offerDtmfPt.isSome && decide (dtmf_payload_type > 0)
  let formats := intToStr chosen.payload_type ::
    (if includeDtmf then [intToStr dtmf_payload_type] else [])
  let rtpmapVals := (intToStr chosen.payload_type ++ ' ' :: (codecName ++ '/' :: intToStr codecRate)) ::
    (if includeDtmf then [intToStr dtmf_payload_type ++ " telephone-event/8000".data] else [])
  let attrs : Attrs :=
    ("rtpmap".data, rtpmapVals) ::
    (if includeDtmf then
      [("fmtp".data, [intToStr dtmf_payload_type ++ " 0-16".data])] else [])
    ++ [("ptime".data, [intToStr answerPtime]), (answerDirection, [])]
  let answerMedia0 : MediaDescription :=
    { media := "audio".data, port := rtp_port, proto := offerAudio.proto,
      formats := formats, attributes := attrs }
  let answerCodecs ←
    match extractCodecs answerMedia0 with
    | some cs => pure cs
    | none => throw .valueError
  let answerMedia := { answerMedia0 with codecs := answerCodecs }
  let answer : SdpMessage :=
    { version := 0,
      origin := { username := "-".data, session_id := sid, session_version := sid,
                  net_type := "IN".data, addr_type := "IP4".data, address := local_ip },
      session_name := "-".data,
      connection := some { net_type := "IN".data, addr_type := "IP4".data,
                           address := local_ip },
      timing := { start_time := 0, stop_time := 0 },
      media := [answerMedia] }
  pure (answer, chosen.payload_type)

/-- `serialize_sdp` from sdp.py: fixed field order, CRLF line terminators,
trailing CRLF. -/
def serializeSdp (sdp : SdpMessage) : Str :=
  let o := sdp.origin
  let sessionLines :=
    ["v=".data ++ intToStr sdp.version,
     "o=".data ++ o.username ++ ' ' :: o.session_id ++ ' ' :: o.session_version
       ++ ' ' :: o.net_type ++ ' ' :: o.addr_type ++ ' ' :: o.address,
     "s=".data ++ sdp.session_name]
    ++ (match sdp.connection with
        | some c => ["c=".data ++ c.net_type ++ ' ' :: c.addr_type ++ ' ' :: c.address]
        | none => [])
    ++ sdp.bandwidths.map (fun b => "b=".data ++ b.bwtype ++ ':' :: intToStr b.bandwidth)
    ++ ["t=".data ++ intToStr sdp.timing.start_time ++ ' ' :: intToStr sdp.timing.stop_time]
    ++ (sdp.attributes.map (fun kv =>
          match kv with
          | (k, []) => ["a=".data ++ k]
          | (k, vs) => vs.map (fun v => "a=".data ++ k ++ ':' :: v))).flatten
  let mediaLines := (sdp.media.map (fun m =>
    ["m=".data ++ m.media ++ ' ' :: intToStr m.port ++ ' ' :: m.proto
       ++ ' ' :: joinSep ' ' m.formats]
    ++ (match m.connection with
        | some c => ["c=".data ++ c.net_type ++ ' ' :: c.addr_type ++ ' ' :: c.address]
        | none => [])
    ++ m.bandwidths.map (fun b => "b=".data ++ b.bwtype ++ ':' :: intToStr b.bandwidth)
    ++ (m.attributes.map (fun kv =>
          match kv with
          | (k, []) => ["a=".data ++ k]
          | (k, vs) => vs.map (fun v => "a=".data ++ k ++ ':' :: v))).flatten)).flatten
  joinStr "\r\n".data (sessionLines ++ mediaLines) ++ "\r\n".data

/-- Python `str.splitlines()` worker: `cur` holds the current line reversed.
`\r\n`, `\r` and `\n` terminate a line; no empty final line is produced. -/
def pySplitlinesGo (cur : Str) : Str → List Str
  | [] => [cur.reverse]
  | '\r' :: '\n' :: rest =>
      cur.reverse :: (if rest.isEmpty then [] else pySplitlinesGo [] rest)
  | '\r' :: rest =>
      cur.reverse :: (if rest.isEmpty then [] else pySplitlinesGo [] rest)
  | '\n' :: rest =>
      cur.reverse :: (if rest.isEmpty then [] else pySplitlinesGo [] rest)
  | c :: rest => pySplitlinesGo (c :: cur) rest
termination_by s => s.length
decreasing_by all_goals simp [List.length] <;> omega

/-- Python `str.splitlines()`. -/
def pySplitlines (s : Str) : List Str :=
  if s.isEmpty then [] else pySplitlinesGo [] s

/-- `_parse_origin` from sdp.py. -/
def parseOrigin (value : Str) : Origin :=
  match pySplitWs value with
  | u :: sid :: sv :: nt :: aty :: ad :: _ =>
      { username := u, session_id := sid, session_version := sv,
        net_type := nt, addr_type := aty, address := ad }
  | _ => {}

/-- `_parse_connection` from sdp.py. -/
def parseConnection (value : Str) : ConnectionData :=
  match pySplitWs value with
  | nt :: aty :: ad :: _ => { net_type := nt, addr_type := aty, address := ad }
  | _ => {}

/-- `_parse_bandwidth` from sdp.py; `none` models the `int()` raise. -/
def parseBandwidth (value : Str) : Option Bandwidth :=
  match splitFirst ':' value with
  | some (bt, bw) => (pyInt bw).map (fun n => { bwtype := bt, bandwidth := n })
  | none => some {}

/-- `_parse_timing` from sdp.py; `none` models the `int()` raise. -/
def parseTiming (value : Str) : Option TimingField :=
  match pySplitWs value with
  | a :: b :: _ => do
      let sa ← pyInt a
      let sb ← pyInt b
      pure { start_time := sa, stop_time := sb }
  | _ => some {}

/-- `_parse_media_line` from sdp.py; `none` models the `int()` raise. -/
def parseMediaLine (value : Str) : Option MediaDescription :=
  match pySplitWs value with
  | med :: port :: proto :: fmts =>
      if fmts ≠ [] then
        (pyInt port).map (fun p =>
          { media := med, port := p, proto := proto, formats := fmts })
      else
        (pyInt port).map (fun p => { media := med, port := p, proto := proto })
  | _ => some {}

/-- `_add_attribute` from sdp.py. -/
def addAttribute (attrs : Attrs) (line : Str) : Attrs :=
  match splitFirst ':' line with
  | some (k, v) => attrsAppend attrs k v
  | none => attrsFlag attrs line

/-- Commit the media section being accumulated (codec extraction happens
here; `none` models the `ValueError` raise inside `_extract_codecs`). -/
def commitMedia (sdp : SdpMessage) (cur : Option MediaDescription) :
    Option SdpMessage :=
  match cur with
  | some cm =>
      (extractCodecs cm).map (fun cs =>
        { sdp with media := sdp.media ++ [{ cm with codecs := cs }] })
  | none => some sdp

/-- One line of the `parse_sdp` loop. -/
def parseSdpStep (st : SdpMessage × Option MediaDescription) (line0 : Str) :
    Option (SdpMessage × Option MediaDescription) :=
  let (sdp, cur) := st
  let line := pyStrip line0
  match line with
  | c0 :: '=' :: value =>
    if c0 = 'm' then do
      let sdp1 ← commitMedia sdp cur
      let cm ← parseMediaLine value
      pure (sdp1, some cm)
    else
      match cur with
      | some cm =>
        if c0 = 'c' then some (sdp, some { cm with connection := some (parseConnection value) })
        else if c0 = 'b' then
          (parseBandwidth value).map (fun b =>
            (sdp, some { cm with bandwidths := cm.bandwidths ++ [b] }))
        else if c0 = 'a' then
          some (sdp, some { cm with attributes := addAttribute cm.attributes value })
        else some (sdp, some cm)
      | none =>
        if c0 = 'v' then (pyInt value).map (fun n => ({ sdp with version := n }, none))
        else if c0 = 'o' then some ({ sdp with origin := parseOrigin value }, none)
        else if c0 = 's' then some ({ sdp with session_name := value }, none)
        else if c0 = 'c' then
          some ({ sdp with connection := some (parseConnection value) }, none)
        else if c0 = 'b' then
          (parseBandwidth value).map (fun b =>
            ({ sdp with bandwidths := sdp.bandwidths ++ [b] }, none))
        else if c0 = 't' then
          (parseTiming value).map (fun t => ({ sdp with timing := t }, none))
        else if c0 = 'a' then
          some ({ sdp with attributes := addAttribute sdp.attributes value }, none)
        else some (sdp, none)
  | _ => some st

/-- `parse_sdp` from sdp.py; `none` models an uncaught `ValueError`. -/
def parseSdp (data : Str) : Option SdpMessage := do
  let (sdp, cur) ← (pySplitlines data).foldlM parseSdpStep ({}, none)
  commitMedia sdp cur

/-! ## UAC (uac.py) -/

/-- A network address `(host, port)`. -/
abbrev Addr := Str × Int

/-- The `f"<sip:{host}:{port}>"` Contact string built by the UAC and UAS. -/
def contactStr (a : Addr) : Str :=
  "<sip:".data ++ a.1 ++ ':' :: intToStr a.2 ++ ">".data

/-- Decidable equality for `Except` results. -/
instance {ε α : Type} [DecidableEq ε] [DecidableEq α] : DecidableEq (Except ε α) :=
  fun a b =>
    match a, b with
    | .error x, .error y =>
        if h : x = y then .isTrue (congrArg Except.error h)
        else .isFalse (fun q => h (Except.error.inj q))
    | .ok x, .ok y =>
        if h : x = y then .isTrue (congrArg Except.ok h)
        else .isFalse (fun q => h (Except.ok.inj q))
    | .error _, .ok _ => .isFalse (fun q => Except.noConfusion q)
    | .ok _, .error _ => .isFalse (fun q => Except.noConfusion q)

/-- Outcome of a `SipUAC` method: the returned request or the raised
`ValueError` message, the dialog after the call, and everything handed to
`transport.send` during the call. -/
structure UacResult where
  result : Except Str SipMessage
  dialog : Dialog
  sent : List (SipMessage × Addr)
deriving Repr, DecidableEq

/-- `SipUAC.send_bye` from uac.py.  `localAddr` models
`transport.local_addr`; `branch` the fresh `generate_branch()` value. -/
def sendBye (d : Dialog) (localAddr : Addr) (branch : Str) (remoteAddr : Addr) :
    UacResult :=
  if d.state ≠ .confirmed then
    { result := .error ("Cannot send BYE: dialog is ".data ++ d.state.value
        ++ ", expected confirmed".data),
      dialog := d, sent := [] }
  else
    let (d1, bye0) := createRequest d "BYE".data localAddr.1 localAddr.2 "UDP".data branch
    let bye := { bye0 with
      headers := hdSetSingle bye0.headers "Contact".data (contactStr localAddr) }
    { result := .ok bye, dialog := d1.terminate, sent := [(bye, remoteAddr)] }

/-- `SipUAC.send_reinvite` from uac.py. -/
def sendReinvite (d : Dialog) (sdp : SdpMessage) (localAddr : Addr)
    (branch : Str) (remoteAddr : Addr) : UacResult :=
  if d.state ≠ .confirmed then
    { result := .error ("Cannot send re-INVITE: dialog is ".data ++ d.state.value
        ++ ", expected confirmed".data),
      dialog := d, sent := [] }
  else
    let (d1, inv0) := createRequest d "INVITE".data localAddr.1 localAddr.2 "UDP".data branch
    let inv1 := { inv0 with
      headers := hdSetSingle inv0.headers "Contact".data (contactStr localAddr) }
    let inv := { inv1 with
      body := serializeSdp sdp,
      headers := hdSetSingle inv1.headers "Content-Type".data "application/sdp".data }
    { result := .ok inv, dialog := d1, sent := [(inv, remoteAddr)] }

/-- `SipUAC.send_cancel` from uac.py. -/
def sendCancel (d : Dialog) (localAddr : Addr) (branch : Str) (remoteAddr : Addr) :
    UacResult :=
  if d.state ≠ .early then
    { result := .error ("Cannot send CANCEL: dialog is ".data ++ d.state.value
        ++ ", expected early".data),
      dialog := d, sent := [] }
  else
    let (d1, cancel) := createRequest d "CANCEL".data localAddr.1 localAddr.2 "UDP".data branch
    { result := .ok cancel, dialog := d1.terminate, sent := [(cancel, remoteAddr)] }

/-- `SipUAC.send_info` from uac.py. -/
def sendInfo (d : Dialog) (body : Str) (contentType : Str) (localAddr : Addr)
    (branch : Str) (remoteAddr : Addr) : UacResult :=
  if d.state ≠ .confirmed then
    { result := .error ("Cannot send INFO: dialog is ".data ++ d.state.value
        ++ ", expected confirmed".data),
      dialog := d, sent := [] }
  else
    let (d1, info0) := createRequest d "INFO".data localAddr.1 localAddr.2 "UDP".data branch
    let info := { info0 with
      body := body,
      headers := hdSetSingle info0.headers "Content-Type".data contentType }
    { result := .ok info, dialog := d1, sent := [(info, remoteAddr)] }

/-! ## UAS INVITE dispatch (uas.py) -/

/-- `IncomingCall` from uas.py (the transport reference is modeled by the
`localAddr` arguments of the handlers). -/
structure IncomingCall where
  dialog : Dialog
  invite : SipMessage
  sdp_offer : Option SdpMessage := none
  source_addr : Addr := ("0.0.0.0".data, 0)
  answered : Bool := false
deriving Repr, DecidableEq

/-- Observable effects of the INVITE handler: responses handed to
`transport.send_reply`, and the lifecycle callbacks fired (modeled as
events, i.e. what the registered callbacks would receive). -/
inductive UasEvent
  | reply (resp : SipMessage)
  | onInvite (call : IncomingCall)
  | onReinvite (call : IncomingCall)
deriving Repr, DecidableEq

/-- The UAS call table `_calls`, keyed by Call-ID. -/
abbrev CallTable := List (Str × IncomingCall)

/-- `IncomingCall.trying`: build the 100 Trying via the dialog (with the
transport-derived Contact) as handed to `send_reply`. -/
def callTrying (c : IncomingCall) (localAddr : Addr) : SipMessage :=
  createResponse c.dialog c.invite 100 "Trying".data (some (contactStr localAddr))

/-- The new-call branch of `SipUAS._handle_invite`. -/
def handleInviteNew (calls : CallTable) (request : SipMessage) (addr : Addr)
    (localAddr : Addr) (freshTag : Str) (callId : Str) :
    Option (CallTable × List UasEvent) := do
  let dialog ← createDialogFromRequest request freshTag none
  let sdpOffer ←
    if request.body ≠ [] ∧ msgContentType request = some "application/sdp".data then
      (parseSdp request.body).map some
    else pure none
  let call : IncomingCall :=
    { dialog := dialog, invite := request, sdp_offer := sdpOffer, source_addr := addr }
  let calls1 := dictSet calls callId call
  let resp := callTrying call localAddr
  pure (calls1, [UasEvent.reply resp, UasEvent.onInvite call])

/-- `SipUAS._handle_invite` from uas.py.  `freshTag` models the
`generate_tag()` value drawn if a new dialog is created; `none` models an
uncaught exception from header or SDP parsing (in which case the Python
handler leaves the call table unchanged and sends nothing, except that the
re-INVITE branch has already replaced the stored `invite` — no claim
observes that partial write). -/
def handleInvite (calls : CallTable) (request : SipMessage) (addr : Addr)
    (localAddr : Addr) (freshTag : Str) : Option (CallTable × List UasEvent) := do
  let callId := (msgCallId request).getD []
  match dictFind calls callId with
  | some existing =>
    if existing.dialog.state = .confirmed then do
      let existing1 := { existing with invite := request }
      let existing2 ←
        if request.body ≠ [] ∧ msgContentType request = some "application/sdp".data then
          (parseSdp request.body).map (fun s => { existing1 with sdp_offer := some s })
        else pure existing1
      pure (dictSet calls callId existing2, [UasEvent.onReinvite existing2])
    else handleInviteNew calls request addr localAddr freshTag callId
  | none => handleInviteNew calls request addr localAddr freshTag callId

/-! ## Helper lemmas: characters -/

theorem toNat_ofNat_valid {n : Nat} (h : n.isValidChar) : (Char.ofNat n).toNat = n := by
  unfold Char.ofNat
  rw [dif_pos h]
  unfold Char.ofNatAux Char.toNat
  simp [UInt32.toNat, BitVec.toNat_ofNatLt]

theorem valid_small {n : Nat} (h : n < 0xD800) : n.isValidChar := Or.inl h

theorem char_toNat_inj {a b : Char} (h : a.toNat = b.toNat) : a = b := by
  have ha := Char.ofNat_toNat a
  have hb := Char.ofNat_toNat b
  rw [← ha, ← hb, h]

theorem toNat_asciiLower (c : Char) :
    (asciiLower c).toNat =
      if 65 ≤ c.toNat ∧ c.toNat ≤ 90 then c.toNat + 32 else c.toNat := by
  simp only [asciiLower, Char.toLower, ge_iff_le]
  split_ifs with h
  · exact toNat_ofNat_valid (valid_small (by omega))
  · rfl

theorem toNat_asciiUpper (c : Char) :
    (asciiUpper c).toNat =
      if 97 ≤ c.toNat ∧ c.toNat ≤ 122 then c.toNat - 32 else c.toNat := by
  simp only [asciiUpper, Char.toUpper, ge_iff_le]
  split_ifs with h
  · exact toNat_ofNat_valid (valid_small (by omega))
  · rfl

theorem asciiLower_asciiUpper (c : Char) :
    asciiLower (asciiUpper c) = asciiLower c := by
  apply char_toNat_inj
  rw [toNat_asciiLower, toNat_asciiUpper, toNat_asciiLower]
  split_ifs <;> omega

theorem asciiLower_idem (c : Char) : asciiLower (asciiLower c) = asciiLower c := by
  apply char_toNat_inj
  rw [toNat_asciiLower, toNat_asciiLower]
  split_ifs <;> omega

theorem asciiLower_eq_or_range (x : Char) :
    asciiLower x = x ∨ (97 ≤ (asciiLower x).toNat ∧ (asciiLower x).toNat ≤ 122) := by
  by_cases h : 65 ≤ x.toNat ∧ x.toNat ≤ 90
  · right
    rw [toNat_asciiLower, if_pos h]
    omega
  · left
    apply char_toNat_inj
    rw [toNat_asciiLower, if_neg h]

theorem lowerStr_idem (s : Str) : lowerStr (lowerStr s) = lowerStr s := by
  simp only [lowerStr, List.map_map]
  exact List.map_congr_left (fun c _ => asciiLower_idem c)

theorem lowerStr_append (a b : Str) :
    lowerStr (a ++ b) = lowerStr a ++ lowerStr b := by
  simp [lowerStr]

/-! ## Claim C8 -/

/-- C8: the claim says `parse_uri` never throws, falling back to storing the
full hostport as the host; the code in fact raises an uncaught `ValueError`
from `int()` on a bracketed IPv6 host followed by a malformed port, as on
the input `"sip:[::1]:junk"`.  The spec is the clear intent (the parallel
non-bracketed branch catches exactly this error), so this is a code bug;
this theorem evaluates the model at the failing input. -/
theorem claim_C8_bracket_port_raises : parseUri "sip:[::1]:junk".data = none := by
  decide

/-! ## Claim C5 -/

/-- C5: every UAC method called on a dialog in the wrong state (BYE,
re-INVITE, INFO require CONFIRMED; CANCEL requires EARLY) returns an error,
leaves the dialog exactly as it was, and hands nothing to the transport. -/
theorem claim_C5_uac_wrong_state_no_mutation (d : Dialog) (la ra : Addr)
    (br : Str) (sdp : SdpMessage) (body ct : Str) :
    (d.state ≠ DialogState.confirmed →
      ((∃ e, (sendBye d la br ra).result = .error e) ∧
        (sendBye d la br ra).dialog = d ∧ (sendBye d la br ra).sent = []) ∧
      ((∃ e, (sendReinvite d sdp la br ra).result = .error e) ∧
        (sendReinvite d sdp la br ra).dialog = d ∧
        (sendReinvite d sdp la br ra).sent = []) ∧
      ((∃ e, (sendInfo d body ct la br ra).result = .error e) ∧
        (sendInfo d body ct la br ra).dialog = d ∧
        (sendInfo d body ct la br ra).sent = [])) ∧
    (d.state ≠ DialogState.early →
      (∃ e, (sendCancel d la br ra).result = .error e) ∧
        (sendCancel d la br ra).dialog = d ∧ (sendCancel d la br ra).sent = []) := by
  refine ⟨fun hc => ?_, fun he => ?_⟩
  · simp [sendBye, sendReinvite, sendInfo, if_pos hc]
  · simp [sendCancel, if_pos he]

/-- Witness for C5 at a concrete terminated dialog. -/
theorem claim_C5_witness :
    ((DialogState.terminated ≠ DialogState.confirmed) ∧
      (sendBye { state := DialogState.terminated } ("a".data, 1) "b".data
        ("c".data, 2)).sent = []) ∧
    ((DialogState.terminated ≠ DialogState.early) ∧
      (sendCancel { state := DialogState.terminated } ("a".data, 1) "b".data
        ("c".data, 2)).sent = []) := by
  constructor
  · exact ⟨by decide,
      (((claim_C5_uac_wrong_state_no_mutation { state := .terminated } ("a".data, 1)
        ("c".data, 2) "b".data {} [] []).1 (by decide)).1).2.2⟩
  · exact ⟨by decide,
      ((claim_C5_uac_wrong_state_no_mutation { state := .terminated } ("a".data, 1)
        ("c".data, 2) "b".data {} [] []).2 (by decide)).2.2⟩

/-! ## Claim C6 -/

/-- C6: every dialog produced by `create_dialog_from_request` has a route
set equal to the request's Record-Route header values in reverse order. -/
theorem claim_C6_route_set_reversal (request : SipMessage) (tag : Str)
    (lu : Option Str) (d : Dialog)
    (h : createDialogFromRequest request tag lu = some d) :
    d.route_set = (hdGet request.headers "record-route".data).reverse := by
  simp only [createDialogFromRequest, bind, Option.bind_eq_some, Option.pure_def,
    Option.some_inj] at h
  obtain ⟨fa, -, h⟩ := h
  cases lu with
  | some lu0 =>
    simp only [Option.bind_eq_some, Option.some_inj] at h
    obtain ⟨x, -, cs, -, cq, -, h⟩ := h
    subst h
    rfl
  | none =>
    simp only [Option.bind_eq_some, Option.some_inj] at h
    obtain ⟨ta, -, h⟩ := h
    cases ta with
    | some t =>
      simp only [Option.bind_eq_some, Option.some_inj] at h
      obtain ⟨u, -, cs, -, cq, -, h⟩ := h
      subst h
      rfl
    | none =>
      simp only [Option.bind_eq_some, Option.some_inj] at h
      obtain ⟨u, -, cs, -, cq, -, h⟩ := h
      subst h
      rfl

/-- Witness for C6: a concrete INVITE with two Record-Route values. -/
theorem claim_C6_witness :
    ({ call_id := [], local_tag := "tag1".data, remote_tag := [],
       local_uri := "sip:callee".data, remote_uri := [], remote_target := [],
       route_set := ["<sip:p2;lr>".data, "<sip:p1;lr>".data], local_cseq := 0,
       remote_cseq := 1, state := .early } : Dialog).route_set =
      (hdGet [⟨"record-route".data, "Record-Route".data,
        ["<sip:p1;lr>".data, "<sip:p2;lr>".data]⟩] "record-route".data).reverse :=
  claim_C6_route_set_reversal
    { start := .request "INVITE".data "sip:callee".data,
      headers := [⟨"record-route".data, "Record-Route".data,
        ["<sip:p1;lr>".data, "<sip:p2;lr>".data]⟩] }
    "tag1".data none _ (by decide)

/-! ## Helper lemmas: split/join, prettify casing, header dict -/

theorem pySplit_ne_nil (c : Char) (s : Str) : pySplit c s ≠ [] := by
  cases s with
  | nil => simp [pySplit]
  | cons x xs =>
    simp only [pySplit]
    split_ifs with h
    · simp
    · cases hs : pySplit c xs <;> simp

theorem joinSep_cons_cons (c : Char) (x y : Str) (xs : List Str) :
    joinSep c (x :: y :: xs) = x ++ c :: joinSep c (y :: xs) := rfl

theorem joinSep_pySplit (c : Char) (s : Str) : joinSep c (pySplit c s) = s := by
  induction s with
  | nil => rfl
  | cons x xs ih =>
    simp only [pySplit]
    split_ifs with h
    · subst h
      obtain ⟨p, ps, hps⟩ := List.exists_cons_of_ne_nil (pySplit_ne_nil x xs)
      rw [hps] at ih ⊢
      rw [joinSep_cons_cons, List.nil_append]
      exact congrArg (x :: ·) ih
    · cases hps : pySplit c xs with
      | nil => exact absurd hps (pySplit_ne_nil c xs)
      | cons p ps =>
        rw [hps] at ih
        cases ps with
        | nil => simpa [joinSep] using congrArg (x :: ·) ih
        | cons q qs =>
          rw [joinSep_cons_cons] at ih ⊢
          rw [← ih]
          rfl

theorem lowerStr_cons (c : Char) (s : Str) :
    lowerStr (c :: s) = asciiLower c :: lowerStr s := rfl

theorem lowerStr_joinSep_dash (l : List Str) :
    lowerStr (joinSep '-' l) = joinSep '-' (l.map lowerStr) := by
  induction l with
  | nil => rfl
  | cons x xs ih =>
    cases xs with
    | nil => rfl
    | cons y ys =>
      rw [joinSep_cons_cons, List.map_cons, List.map_cons, joinSep_cons_cons,
        lowerStr_append, lowerStr_cons]
      rw [List.map_cons] at ih
      rw [ih]
      rfl

theorem lowerStr_pyCapitalize (p : Str) : lowerStr (pyCapitalize p) = lowerStr p := by
  cases p with
  | nil => rfl
  | cons c cs =>
    rw [pyCapitalize, lowerStr_cons, lowerStr_cons, asciiLower_asciiUpper]
    exact congrArg _ (lowerStr_idem cs)

theorem lowerStr_prettifyHeaderName (s : Str) :
    lowerStr (prettifyHeaderName s) = lowerStr s := by
  rw [prettifyHeaderName]
  cases hf : prettyNames.find? (fun kv => kv.1 == lowerStr s) with
  | some kv =>
    have hmem := List.mem_of_find?_eq_some hf
    have hpred := List.find?_some hf
    have htab : ∀ kv ∈ prettyNames, lowerStr kv.2 = kv.1 := by decide
    have h1 : kv.1 = lowerStr s := by simpa using hpred
    rw [htab kv hmem, h1]
  | none =>
    rw [lowerStr_joinSep_dash, List.map_map]
    have : (pySplit '-' s).map (lowerStr ∘ pyCapitalize) = (pySplit '-' s).map lowerStr :=
      List.map_congr_left (fun p _ => lowerStr_pyCapitalize p)
    rw [this, ← lowerStr_joinSep_dash, joinSep_pySplit]

theorem filter_msgHeaderPairs (d : HDict)
    (hcase : ∀ e ∈ d, e.key = lowerStr e.orig) (k : Str) :
    (msgHeaderPairs d).filter (fun p => lowerStr p.1 == k) =
      msgHeaderPairs (d.filter (fun e => e.key == k)) := by
  induction d with
  | nil => rfl
  | cons e rest ih =>
    have he := hcase e (List.mem_cons_self e rest)
    have hrest := fun x hx => hcase x (List.mem_cons_of_mem e hx)
    have hkey : lowerStr (prettifyHeaderName e.orig) = e.key := by
      rw [lowerStr_prettifyHeaderName, ← he]
    simp only [msgHeaderPairs, List.map_cons, List.flatten_cons, List.filter_append,
      List.filter_cons, List.filter_map] at *
    have hcomp : ((fun (p : Str × Str) => lowerStr p.1 == k) ∘
        (fun v => (prettifyHeaderName e.orig, v))) = fun (_ : Str) => (e.key == k) := by
      funext v
      simp [Function.comp, hkey]
    rw [hcomp]
    by_cases hk : e.key = k
    · simp [hk, ih hrest]
    · have hf : (e.key == k) = false := by simp [hk]
      simp [hf, ih hrest]

theorem hdSetSingle_keyOrig (d : HDict) (n v : Str)
    (hcase : ∀ e ∈ d, e.key = lowerStr e.orig) :
    ∀ e ∈ hdSetSingle d n v, e.key = lowerStr e.orig := by
  induction d with
  | nil =>
    intro e hmem
    simp only [hdSetSingle, List.mem_singleton] at hmem
    subst hmem
    rfl
  | cons e0 rest ih =>
    intro e hmem
    rw [hdSetSingle] at hmem
    split_ifs at hmem with h0
    · rcases List.mem_cons.1 hmem with h | h
      · subst h
        exact h0
      · exact hcase e (List.mem_cons_of_mem e0 h)
    · rcases List.mem_cons.1 hmem with h | h
      · subst h
        exact hcase _ (List.mem_cons_self _ _)
      · exact ih (fun x hx => hcase x (List.mem_cons_of_mem _ hx)) e h

theorem hdSetSingle_keys_subset (d : HDict) (n v : Str) :
    ∀ e ∈ hdSetSingle d n v, e.key = lowerStr n ∨ e.key ∈ d.map HEntry.key := by
  induction d with
  | nil =>
    intro e hmem
    simp only [hdSetSingle, List.mem_singleton] at hmem
    subst hmem
    exact Or.inl rfl
  | cons e0 rest ih =>
    intro e hmem
    rw [hdSetSingle] at hmem
    split_ifs at hmem with h0
    · rcases List.mem_cons.1 hmem with h | h
      · subst h
        exact Or.inl h0
      · exact Or.inr (List.mem_cons_of_mem _ (List.mem_map_of_mem HEntry.key h))
    · rcases List.mem_cons.1 hmem with h | h
      · subst h
        exact Or.inr (List.mem_cons_self _ _)
      · rcases ih e h with h1 | h1
        · exact Or.inl h1
        · exact Or.inr (List.mem_cons_of_mem _ h1)

theorem filter_hdSetSingle (d : HDict) (hnd : (d.map HEntry.key).Nodup) (n v : Str) :
    (hdSetSingle d n v).filter (fun e => e.key == lowerStr n) =
      [⟨lowerStr n, n, [v]⟩] := by
  induction d with
  | nil => simp [hdSetSingle]
  | cons e rest ih =>
    rw [hdSetSingle]
    rw [List.map_cons, List.nodup_cons] at hnd
    by_cases he : e.key = lowerStr n
    · rw [if_pos he, List.filter_cons]
      have hrest0 : ∀ x ∈ rest, x.key ≠ lowerStr n := by
        intro x hx hkx
        exact hnd.1 (by rw [he, ← hkx]; exact List.mem_map_of_mem HEntry.key hx)
      have hrest : rest.filter (fun e => e.key == lowerStr n) = [] := by
        rw [List.filter_eq_nil_iff]
        intro x hx
        simp [hrest0 x hx]
      simp [he, hrest]
    · rw [if_neg he, List.filter_cons]
      have : (e.key == lowerStr n) = false := by simp [he]
      simp only [this, if_neg Bool.false_ne_true]
      exact ih hnd.2

theorem hdGet_hdSetSingle_same (d : HDict) (n v : Str) :
    hdGet (hdSetSingle d n v) n = [v] := by
  induction d with
  | nil => simp [hdSetSingle, hdGet, List.find?]
  | cons e rest ih =>
    rw [hdSetSingle]
    by_cases he : e.key = lowerStr n
    · rw [if_pos he]
      simp [hdGet, List.find?, he]
    · rw [if_neg he]
      have : (e.key == lowerStr n) = false := by simp [he]
      simpa [hdGet, List.find?, this] using ih

theorem hdGet_hdSetSingle_other (d : HDict) (n v m : Str)
    (hne : lowerStr m ≠ lowerStr n) :
    hdGet (hdSetSingle d n v) m = hdGet d m := by
  have hnm : ¬(lowerStr n = lowerStr m) := fun h => hne h.symm
  induction d with
  | nil =>
    have : (lowerStr n == lowerStr m) = false := by
      simp only [beq_eq_false_iff_ne, ne_eq]
      exact hnm
    simp [hdSetSingle, hdGet, List.find?, this]
  | cons e rest ih =>
    rw [hdSetSingle]
    by_cases he : e.key = lowerStr n
    · rw [if_pos he]
      have hf : (lowerStr n == lowerStr m) = false := by
        simp only [beq_eq_false_iff_ne, ne_eq]
        exact hnm
      have : (e.key == lowerStr m) = false := by rw [he]; exact hf
      simp [hdGet, List.find?, this, he, hf]
    · rw [if_neg he]
      by_cases hm : e.key = lowerStr m
      · simp [hdGet, List.find?, hm]
      · have : (e.key == lowerStr m) = false := by simp [hm]
        simpa [hdGet, List.find?, this] using ih

/-! ## Claim C7 -/

/-- C7: for every message (with the Python dict invariant on its header
map, including any stale caller-set Content-Length), the serializer emits
exactly one Content-Length header, and its value is the UTF-8 byte length
of the body. -/
theorem claim_C7_content_length (m : SipMessage) (h : HOk m.headers) :
    (msgHeaderPairs (serializeMsg m).1.headers).filter
        (fun p => lowerStr p.1 == "content-length".data) =
      [("Content-Length".data, natToStr (utf8Len m.body))] := by
  have hlow : lowerStr "Content-Length".data = "content-length".data := by decide
  have hcase := hdSetSingle_keyOrig m.headers "Content-Length".data
    (natToStr (utf8Len m.body)) h.2
  have hfil := filter_msgHeaderPairs
    (hdSetSingle m.headers "Content-Length".data (natToStr (utf8Len m.body)))
    hcase "content-length".data
  have hset := filter_hdSetSingle m.headers h.1 "Content-Length".data
    (natToStr (utf8Len m.body))
  rw [hlow] at hset
  show (msgHeaderPairs (hdSetSingle m.headers "Content-Length".data
      (natToStr (utf8Len m.body)))).filter (fun p => lowerStr p.1 == "content-length".data)
    = _
  rw [hfil, hset]
  show [(prettifyHeaderName "Content-Length".data, natToStr (utf8Len m.body))] = _
  have : prettifyHeaderName "Content-Length".data = "Content-Length".data := by decide
  rw [this]

/-- Witness for C7: a message carrying a stale Content-Length of 999 and a
two-byte body serializes with the single value "2". -/
theorem claim_C7_witness :
    (msgHeaderPairs (serializeMsg
        { start := .request "INVITE".data "sip:a".data,
          headers := [⟨"content-length".data, "Content-Length".data, ["999".data]⟩,
                      ⟨"via".data, "Via".data, ["SIP/2.0/UDP h".data]⟩],
          body := "ab".data }).1.headers).filter
        (fun p => lowerStr p.1 == "content-length".data) =
      [("Content-Length".data, natToStr (utf8Len "ab".data))] :=
  claim_C7_content_length
    { start := .request "INVITE".data "sip:a".data,
      headers := [⟨"content-length".data, "Content-Length".data, ["999".data]⟩,
                  ⟨"via".data, "Via".data, ["SIP/2.0/UDP h".data]⟩],
      body := "ab".data }
    (by constructor
        · decide
        · decide)

/-! ## Claim C9 -/

/-- C9: `serialize` mutates its receiver: afterwards the header map holds a
single Content-Length equal to the UTF-8 byte length of the body, while
every other header name, the body, and the start line are unchanged. -/
theorem claim_C9_serialize_frame (m : SipMessage) :
    hdGet (serializeMsg m).1.headers "Content-Length".data =
        [natToStr (utf8Len m.body)] ∧
    (∀ name, lowerStr name ≠ "content-length".data →
      hdGet (serializeMsg m).1.headers name = hdGet m.headers name) ∧
    (serializeMsg m).1.body = m.body ∧ (serializeMsg m).1.start = m.start := by
  refine ⟨hdGet_hdSetSingle_same m.headers _ _, fun name hne => ?_, rfl, rfl⟩
  refine hdGet_hdSetSingle_other m.headers _ _ name ?_
  have hlow : lowerStr "Content-Length".data = "content-length".data := by decide
  rw [hlow]
  exact hne

/-- Witness for C9 at a concrete message and the untouched Via header. -/
theorem claim_C9_witness :
    hdGet (serializeMsg
        { start := .request "INVITE".data "sip:a".data,
          headers := [⟨"via".data, "Via".data, ["SIP/2.0/UDP h".data]⟩],
          body := "abc".data }).1.headers "Via".data =
      hdGet [⟨"via".data, "Via".data, ["SIP/2.0/UDP h".data]⟩] "Via".data :=
  (claim_C9_serialize_frame
    { start := .request "INVITE".data "sip:a".data,
      headers := [⟨"via".data, "Via".data, ["SIP/2.0/UDP h".data]⟩],
      body := "abc".data }).2.1 "Via".data (by decide)

/-! ## Helper lemmas: `hdAppend` and header chains -/

theorem hdGet_nil (n : Str) : hdGet ([] : HDict) n = [] := rfl

theorem hdGet_hdAppend_same (d : HDict) (n v : Str) :
    hdGet (hdAppend d n v) n = hdGet d n ++ [v] := by
  induction d with
  | nil => simp [hdAppend, hdGet, List.find?]
  | cons e rest ih =>
    rw [hdAppend]
    by_cases he : e.key = lowerStr n
    · rw [if_pos he]
      simp [hdGet, List.find?, he]
    · rw [if_neg he]
      have : (e.key == lowerStr n) = false := by simp [he]
      simpa [hdGet, List.find?, this] using ih

theorem hdGet_hdAppend_other (d : HDict) (n v m : Str)
    (hne : lowerStr m ≠ lowerStr n) :
    hdGet (hdAppend d n v) m = hdGet d m := by
  have hnm : ¬(lowerStr n = lowerStr m) := fun h => hne h.symm
  have hf : (lowerStr n == lowerStr m) = false := by
    simp only [beq_eq_false_iff_ne, ne_eq]
    exact hnm
  induction d with
  | nil => simp [hdAppend, hdGet, List.find?, hf]
  | cons e rest ih =>
    rw [hdAppend]
    by_cases he : e.key = lowerStr n
    · rw [if_pos he]
      have : (e.key == lowerStr m) = false := by rw [he]; exact hf
      simp [hdGet, List.find?, this]
    · rw [if_neg he]
      by_cases hm : e.key = lowerStr m
      · simp [hdGet, List.find?, hm]
      · have : (e.key == lowerStr m) = false := by simp [hm]
        simpa [hdGet, List.find?, this] using ih

theorem hdGet_foldlAppend_same (vs : List Str) (d : HDict) (n : Str) :
    hdGet (vs.foldl (fun acc v => hdAppend acc n v) d) n = hdGet d n ++ vs := by
  induction vs generalizing d with
  | nil => simp
  | cons v vs ih =>
    rw [List.foldl_cons, ih, hdGet_hdAppend_same]
    simp

theorem hdGet_foldlAppend_other (vs : List Str) (d : HDict) (n m : Str)
    (hne : lowerStr m ≠ lowerStr n) :
    hdGet (vs.foldl (fun acc v => hdAppend acc n v) d) m = hdGet d m := by
  induction vs generalizing d with
  | nil => rfl
  | cons v vs ih => rw [List.foldl_cons, ih, hdGet_hdAppend_other d n v m hne]

/-! ## Claim C3 -/

/-- C3 counterexample: `create_response` takes the Call-ID from the dialog
(`self.call_id`), not from the request; a dialog whose `call_id` differs
from the request's Call-ID yields a response whose Call-ID is not the
request's.  (Claim: \"the response ... has a ... Call-ID value ... equal to
those of r\" for every dialog and request.) -/
theorem claim_C3_counterexample :
    hdGetFirst (createResponse
        { call_id := "A".data, local_tag := "t".data }
        { start := .request "BYE".data "sip:x".data,
          headers := [⟨"via".data, "Via".data, ["SIP/2.0/UDP h;branch=z9hG4bK1".data]⟩,
                      ⟨"call-id".data, "Call-ID".data, ["B".data]⟩,
                      ⟨"cseq".data, "CSeq".data, ["2 BYE".data]⟩,
                      ⟨"from".data, "From".data, ["<sip:alice>;tag=f".data]⟩,
                      ⟨"to".data, "To".data, ["<sip:bob>".data]⟩] }
        200 "OK".data none).headers "call-id".data ≠
      hdGetFirst [⟨"via".data, "Via".data, ["SIP/2.0/UDP h;branch=z9hG4bK1".data]⟩,
                  ⟨"call-id".data, "Call-ID".data, ["B".data]⟩,
                  ⟨"cseq".data, "CSeq".data, ["2 BYE".data]⟩,
                  ⟨"from".data, "From".data, ["<sip:alice>;tag=f".data]⟩,
                  ⟨"to".data, "To".data, ["<sip:bob>".data]⟩] "call-id".data := by
  decide

/-- C3 amended: for every dialog and request, the response's Via list
equals the request's and its Call-ID equals the *dialog's* `call_id` (which
coincides with the request's only when the dialog was created from it);
the response's CSeq value equals the request's whenever the request's CSeq
value is not the empty string (`create_response` copies a truthy CSeq
verbatim and an absent CSeq stays absent); and when the request has a
nonempty To value and the dialog's local tag is nonempty and not already
present in it, the response's To is that value with `;tag=<local_tag>`
appended. -/
theorem claim_C3_amended_response_headers (d : Dialog) (r : SipMessage)
    (status : Int) (reason : Str) (ct : Option Str) :
    hdGet (createResponse d r status reason ct).headers "via".data =
        hdGet r.headers "via".data ∧
    hdGetFirst (createResponse d r status reason ct).headers "call-id".data =
        some d.call_id ∧
    (hdGetFirst r.headers "cseq".data ≠ some [] →
      hdGetFirst (createResponse d r status reason ct).headers "cseq".data =
        hdGetFirst r.headers "cseq".data) ∧
    (∀ tv, hdGetFirst r.headers "to".data = some tv → tv ≠ [] →
      d.local_tag ≠ [] → ¬ isSubstr ("tag=".data ++ d.local_tag) tv →
      hdGetFirst (createResponse d r status reason ct).headers "to".data =
        some (tv ++ ';' :: ("tag=".data ++ d.local_tag))) := by
  have hdGet_congr : ∀ (dd : HDict) (m n : Str), lowerStr m = lowerStr n →
      hdGet dd m = hdGet dd n := by
    intro dd m n h
    rw [hdGet, hdGet, h]
  have hsame : ∀ (dd : HDict) (nn mm v : Str), lowerStr mm = lowerStr nn →
      hdGet (hdSetSingle dd nn v) mm = [v] := by
    intro dd nn mm v h
    rw [hdGet_congr _ mm nn h, hdGet_hdSetSingle_same]
  have happ : ∀ (vs : List Str) (dd : HDict) (nn mm : Str), lowerStr mm = lowerStr nn →
      hdGet (vs.foldl (fun acc v => hdAppend acc nn v) dd) mm = hdGet dd mm ++ vs := by
    intro vs dd nn mm h
    rw [hdGet_congr _ mm nn h, hdGet_foldlAppend_same, hdGet_congr dd nn mm h.symm]
  have happVia : ∀ vs dd,
      hdGet (List.foldl (fun acc v => hdAppend acc "Via".data v) dd vs) "via".data =
        hdGet dd "via".data ++ vs :=
    fun vs dd => happ vs dd _ _ (by decide)
  have hfsameCSeq : ∀ dd v, hdGetFirst (hdSetSingle dd "CSeq".data v) "cseq".data = some v := by
    intro dd v
    rw [hdGetFirst, hsame dd _ _ v (by decide)]
  have hfsameCID : ∀ dd v,
      hdGetFirst (hdSetSingle dd "Call-ID".data v) "call-id".data = some v := by
    intro dd v
    rw [hdGetFirst, hsame dd _ _ v (by decide)]
  have hfsameTo : ∀ dd v, hdGetFirst (hdSetSingle dd "To".data v) "to".data = some v := by
    intro dd v
    rw [hdGetFirst, hsame dd _ _ v (by decide)]
  have hfother : ∀ (dd : HDict) (nn v mm : Str), lowerStr mm ≠ lowerStr nn →
      hdGetFirst (hdSetSingle dd nn v) mm = hdGetFirst dd mm := by
    intro dd nn v mm h
    rw [hdGetFirst, hdGetFirst, hdGet_hdSetSingle_other dd nn v mm h]
  have hfapp : ∀ (vs : List Str) (dd : HDict) (mm : Str), lowerStr mm ≠ lowerStr "Via".data →
      hdGetFirst (List.foldl (fun acc v => hdAppend acc "Via".data v) dd vs) mm =
        hdGetFirst dd mm := by
    intro vs dd mm h
    rw [hdGetFirst, hdGetFirst, hdGet_foldlAppend_other vs dd _ mm h]
  have hfnil : ∀ mm : Str, hdGetFirst ([] : HDict) mm = none := fun _ => rfl
  refine ⟨?_, ?_, ?_, ?_⟩
  · simp only [createResponse]
    repeat' split
    all_goals
      simp +decide [*, happVia, hdGet_hdSetSingle_other, hdGet_foldlAppend_other,
        hdGet_nil]
  · simp only [createResponse]
    repeat' split
    all_goals
      simp +decide [*, hfsameCID, hfother, hfapp, hfnil]
  · intro hne
    simp only [createResponse]
    repeat' split
    all_goals
      simp +decide [*, hfsameCSeq, hfsameCID, hfother, hfapp, hfnil]
    all_goals
      exfalso
      apply hne
      subst_vars
      assumption
  · intro tv hto htv htag hnot
    simp only [createResponse, hto]
    rw [if_neg htv, if_pos (And.intro htag hnot)]
    repeat' split
    all_goals
      simp +decide [*, hfsameTo, hfsameCID, hfother, hfapp, hfnil]

/-- Witness for the amended C3 at a concrete dialog and request: all four
conclusions, each premise discharged concretely. -/
theorem claim_C3_witness :
    hdGet (createResponse
        { call_id := "A".data, local_tag := "t".data }
        { start := .request "BYE".data "sip:x".data,
          headers := [⟨"via".data, "Via".data, ["SIP/2.0/UDP h;branch=z9hG4bK1".data]⟩,
                      ⟨"cseq".data, "CSeq".data, ["2 BYE".data]⟩,
                      ⟨"to".data, "To".data, ["<sip:bob>".data]⟩] }
        200 "OK".data none).headers "via".data =
      ["SIP/2.0/UDP h;branch=z9hG4bK1".data] ∧
    hdGetFirst (createResponse
        { call_id := "A".data, local_tag := "t".data }
        { start := .request "BYE".data "sip:x".data,
          headers := [⟨"via".data, "Via".data, ["SIP/2.0/UDP h;branch=z9hG4bK1".data]⟩,
                      ⟨"cseq".data, "CSeq".data, ["2 BYE".data]⟩,
                      ⟨"to".data, "To".data, ["<sip:bob>".data]⟩] }
        200 "OK".data none).headers "call-id".data = some "A".data ∧
    hdGetFirst (createResponse
        { call_id := "A".data, local_tag := "t".data }
        { start := .request "BYE".data "sip:x".data,
          headers := [⟨"via".data, "Via".data, ["SIP/2.0/UDP h;branch=z9hG4bK1".data]⟩,
                      ⟨"cseq".data, "CSeq".data, ["2 BYE".data]⟩,
                      ⟨"to".data, "To".data, ["<sip:bob>".data]⟩] }
        200 "OK".data none).headers "cseq".data = some "2 BYE".data ∧
    hdGetFirst (createResponse
        { call_id := "A".data, local_tag := "t".data }
        { start := .request "BYE".data "sip:x".data,
          headers := [⟨"via".data, "Via".data, ["SIP/2.0/UDP h;branch=z9hG4bK1".data]⟩,
                      ⟨"cseq".data, "CSeq".data, ["2 BYE".data]⟩,
                      ⟨"to".data, "To".data, ["<sip:bob>".data]⟩] }
        200 "OK".data none).headers "to".data =
      some ("<sip:bob>".data ++ ';' :: ("tag=".data ++ "t".data)) := by
  have h := claim_C3_amended_response_headers
    { call_id := "A".data, local_tag := "t".data }
    { start := .request "BYE".data "sip:x".data,
      headers := [⟨"via".data, "Via".data, ["SIP/2.0/UDP h;branch=z9hG4bK1".data]⟩,
                  ⟨"cseq".data, "CSeq".data, ["2 BYE".data]⟩,
                  ⟨"to".data, "To".data, ["<sip:bob>".data]⟩] }
    200 "OK".data none
  exact ⟨h.1, h.2.1,
    (by decide : hdGetFirst [⟨"via".data, "Via".data,
        ["SIP/2.0/UDP h;branch=z9hG4bK1".data]⟩,
      ⟨"cseq".data, "CSeq".data, ["2 BYE".data]⟩,
      ⟨"to".data, "To".data, ["<sip:bob>".data]⟩] "cseq".data
        = some "2 BYE".data) ▸ h.2.2.1 (by decide),
    h.2.2.2 "<sip:bob>".data (by decide) (by decide) (by decide) (by decide)⟩

/-! ## Helper lemmas: Python `int()`, splitting, and decimal rendering -/

theorem dropWhile_eq_self_of_all {p : Char → Bool} {s : Str}
    (h : ∀ c ∈ s, p c = false) : s.dropWhile p = s := by
  cases s with
  | nil => rfl
  | cons c cs => simp [List.dropWhile, h c (List.mem_cons_self c cs)]

theorem pyStrip_eq_self {s : Str} (h : ∀ c ∈ s, isPyWs c = false) : pyStrip s = s := by
  rw [pyStrip, dropWhile_eq_self_of_all h,
    dropWhile_eq_self_of_all (fun c hc => h c (List.mem_reverse.1 hc)),
    List.reverse_reverse]

theorem isPyWs_false_of_digit {c : Char} (h : isDigitChar c = true) :
    isPyWs c = false := by
  have hn : 48 ≤ c.toNat ∧ c.toNat ≤ 57 := by simpa [isDigitChar] using h
  by_contra hw
  have hw' : isPyWs c = true := by
    cases hws : isPyWs c
    · exact absurd hws hw
    · rfl
  simp only [isPyWs, Bool.or_eq_true, decide_eq_true_eq] at hw'
  rcases hw' with ((((h1 | h1) | h1) | h1) | h1) | h1 <;> (subst h1; revert hn; decide)

theorem isDigitChar_digitChar {d : Nat} (h : d < 10) :
    isDigitChar (digitChar d) = true := by
  have ht : (digitChar d).toNat = 48 + d := toNat_ofNat_valid (valid_small (by omega))
  simp [isDigitChar, ht]
  omega

theorem natToStrGo_all_digits :
    ∀ (fuel n : Nat), n < fuel → ∀ c ∈ natToStrGo fuel n, isDigitChar c = true := by
  intro fuel
  induction fuel with
  | zero => intro n h; omega
  | succ fuel ih =>
    intro n h c hc
    rw [natToStrGo] at hc
    split_ifs at hc with h10
    · simp only [List.mem_singleton] at hc
      subst hc
      exact isDigitChar_digitChar h10
    · rcases List.mem_append.1 hc with h1 | h1
      · have hlt : n / 10 < fuel := by
          have := Nat.div_lt_self (by omega : 0 < n) (by omega : 1 < 10)
          omega
        exact ih (n / 10) hlt c h1
      · simp only [List.mem_singleton] at h1
        subst h1
        exact isDigitChar_digitChar (Nat.mod_lt _ (by omega))

theorem natToStr_all_digits (n : Nat) : ∀ c ∈ natToStr n, isDigitChar c = true :=
  natToStrGo_all_digits (n + 1) n (by omega)

theorem natToStr_ne_nil (n : Nat) : natToStr n ≠ [] := by
  rw [natToStr, natToStrGo]
  split_ifs <;> simp

theorem digitsToNat_append_digit (a : Str) (c : Char) :
    digitsToNat (a ++ [c]) = digitsToNat a * 10 + (c.toNat - 48) := by
  simp [digitsToNat, List.foldl_append]

theorem digitsToNat_natToStrGo :
    ∀ (fuel n : Nat), n < fuel → digitsToNat (natToStrGo fuel n) = n := by
  intro fuel
  induction fuel with
  | zero => intro n h; omega
  | succ fuel ih =>
    intro n h
    rw [natToStrGo]
    split_ifs with h10
    · have ht : (digitChar n).toNat = 48 + n := toNat_ofNat_valid (valid_small (by omega))
      simp [digitsToNat, ht]
    · have hlt : n / 10 < fuel := by
        have := Nat.div_lt_self (by omega : 0 < n) (by omega : 1 < 10)
        omega
      rw [digitsToNat_append_digit, ih (n / 10) hlt]
      have ht : (digitChar (n % 10)).toNat = 48 + n % 10 :=
        toNat_ofNat_valid (valid_small (by omega))
      rw [ht]
      omega

theorem digitsToNat_natToStr (n : Nat) : digitsToNat (natToStr n) = n :=
  digitsToNat_natToStrGo (n + 1) n (by omega)

theorem parseNatDigits_natToStr (n : Nat) : parseNatDigits (natToStr n) = some n := by
  rw [parseNatDigits, if_pos ⟨natToStr_ne_nil n, List.all_eq_true.2 (natToStr_all_digits n)⟩,
    digitsToNat_natToStr]

theorem intToStr_chars (i : Int) :
    ∀ c ∈ intToStr i, isDigitChar c = true ∨ c = '-' := by
  rw [intToStr]
  split_ifs with h
  · intro c hc
    rcases List.mem_cons.1 hc with h1 | h1
    · exact Or.inr h1
    · exact Or.inl (natToStr_all_digits _ c h1)
  · intro c hc
    exact Or.inl (natToStr_all_digits _ c hc)

theorem digit_ne_chars {c : Char} (h : isDigitChar c = true) :
    c ≠ '-' ∧ c ≠ '+' := by
  have hn : 48 ≤ c.toNat ∧ c.toNat ≤ 57 := by simpa [isDigitChar] using h
  constructor <;> (intro he; subst he; revert hn; decide)

theorem pyInt_intToStr (i : Int) : pyInt (intToStr i) = some i := by
  rw [intToStr]
  split_ifs with h
  · have hstrip : pyStrip ('-' :: natToStr i.natAbs) = '-' :: natToStr i.natAbs := by
      refine pyStrip_eq_self ?_
      intro c hc
      rcases List.mem_cons.1 hc with h1 | h1
      · subst h1
        decide
      · exact isPyWs_false_of_digit (natToStr_all_digits _ c h1)
    rw [pyInt, hstrip]
    have hnn : (i.natAbs : Int) = -i := Int.ofNat_natAbs_of_nonpos (le_of_lt h)
    simp [parseNatDigits_natToStr, hnn]
  · have hstrip : pyStrip (natToStr i.toNat) = natToStr i.toNat := by
      refine pyStrip_eq_self ?_
      intro c hc
      exact isPyWs_false_of_digit (natToStr_all_digits _ c hc)
    obtain ⟨c, cs, hcons⟩ := List.exists_cons_of_ne_nil (natToStr_ne_nil i.toNat)
    have hd : isDigitChar c = true := by
      refine natToStr_all_digits i.toNat c ?_
      rw [hcons]
      exact List.mem_cons_self c cs
    obtain ⟨hd1, hd2⟩ := digit_ne_chars hd
    rw [pyInt, hstrip, hcons]
    split
    · rename_i heq
      injection heq with hc1 _
      exact absurd hc1 hd1
    · rename_i heq
      injection heq with hc1 _
      exact absurd hc1 hd2
    · rw [← hcons, parseNatDigits_natToStr]
      have hnn : ((i.toNat : Nat) : Int) = i := Int.toNat_of_nonneg (by omega)
      simp [hnn]

theorem splitFirst_of_not_mem {c : Char} {s : Str} (h : c ∉ s) :
    splitFirst c s = none := by
  induction s with
  | nil => rfl
  | cons x xs ih =>
    rw [splitFirst]
    have hx : ¬(x = c) := fun he => h (he ▸ List.mem_cons_self x xs)
    rw [if_neg hx, ih (fun hm => h (List.mem_cons_of_mem x hm))]

theorem splitFirst_append {c : Char} {a : Str} (b : Str) (h : c ∉ a) :
    splitFirst c (a ++ c :: b) = some (a, b) := by
  induction a with
  | nil => simp [splitFirst]
  | cons x xs ih =>
    have hx : ¬(x = c) := fun he => h (he ▸ List.mem_cons_self x xs)
    rw [List.cons_append, splitFirst, if_neg hx,
      ih (fun hm => h (List.mem_cons_of_mem x hm))]

theorem pySplit_of_not_mem {c : Char} {s : Str} (h : c ∉ s) :
    pySplit c s = [s] := by
  induction s with
  | nil => rfl
  | cons x xs ih =>
    have hx : ¬(x = c) := fun he => h (he ▸ List.mem_cons_self x xs)
    rw [pySplit, if_neg hx, ih (fun hm => h (List.mem_cons_of_mem x hm))]

theorem pySplit_append {c : Char} {a : Str} (b : Str) (h : c ∉ a) :
    pySplit c (a ++ c :: b) = a :: pySplit c b := by
  induction a with
  | nil => simp [pySplit]
  | cons x xs ih =>
    have hx : ¬(x = c) := fun he => h (he ▸ List.mem_cons_self x xs)
    rw [List.cons_append, pySplit, if_neg hx,
      ih (fun hm => h (List.mem_cons_of_mem x hm))]

theorem not_mem_of_all_digits_slash {s : Str}
    (h : ∀ c ∈ s, isDigitChar c = true ∨ c = '-') : '/' ∉ s := by
  intro hm
  rcases h '/' hm with h1 | h1
  · revert h1
    decide
  · exact absurd h1 (by decide)

theorem not_mem_of_all_digits_space {s : Str}
    (h : ∀ c ∈ s, isDigitChar c = true ∨ c = '-') : ' ' ∉ s := by
  intro hm
  rcases h ' ' hm with h1 | h1
  · revert h1
    decide
  · exact absurd h1 (by decide)

/-! ## Helper lemmas: negotiation and codec extraction -/

theorem wellKnownCodec_name_slash {pt : Int} {nm : Str} {rt : Int} {ch : Option Int}
    (h : wellKnownCodec pt = some (nm, rt, ch)) : '/' ∉ nm := by
  rw [wellKnownCodec] at h
  split_ifs at h <;>
    (obtain ⟨h1, -⟩ := Prod.mk.injEq .. ▸ Option.some_inj.1 h
     subst h1
     decide)

theorem attrsGet_cons_eq (k : Str) (vs : List Str) (rest : Attrs) :
    attrsGet ((k, vs) :: rest) k = vs := by
  simp [attrsGet, List.find?]

theorem attrsGet_cons_ne (k0 k : Str) (vs : List Str) (rest : Attrs)
    (h : k0 ≠ k) : attrsGet ((k0, vs) :: rest) k = attrsGet rest k := by
  have : (k0 == k) = false := by simp [h]
  simp [attrsGet, List.find?, this]

theorem directionAnswer_cases (d : Str) :
    directionAnswer d = "sendrecv".data ∨ directionAnswer d = "recvonly".data ∨
      directionAnswer d = "sendonly".data ∨ directionAnswer d = "inactive".data := by
  rw [directionAnswer]
  split_ifs <;> simp

theorem extractRtpmaps_good (vals : List Str)
    (h : ∀ v ∈ vals, ∃ a nm r, v = intToStr a ++ ' ' :: (nm ++ '/' :: intToStr r) ∧
      '/' ∉ nm) :
    ∃ rm, extractRtpmaps vals = some rm := by
  rw [extractRtpmaps]
  generalize ([] : List (Int × Codec)) = acc
  induction vals generalizing acc with
  | nil => exact ⟨acc, rfl⟩
  | cons v vs ih =>
    obtain ⟨a, nm, r, hv, hnm⟩ := h v (List.mem_cons_self v vs)
    have hsp : splitFirst ' ' v = some (intToStr a, nm ++ '/' :: intToStr r) := by
      rw [hv]
      exact splitFirst_append _ (not_mem_of_all_digits_space (intToStr_chars a))
    have hps : pySplit '/' (nm ++ '/' :: intToStr r) = [nm, intToStr r] := by
      rw [pySplit_append _ hnm,
        pySplit_of_not_mem (not_mem_of_all_digits_slash (intToStr_chars r))]
    rw [List.foldlM_cons]
    simp only [hsp, hps, pyInt_intToStr, Option.bind_eq_bind, Option.bind_some,
      Option.some_bind]
    exact ih (fun v hv => h v (List.mem_cons_of_mem _ hv)) _

theorem applyFmtps_good (rt : List (Int × Codec)) (vals : List Str)
    (h : ∀ v ∈ vals, ∃ a rest, v = intToStr a ++ ' ' :: rest) :
    ∃ rm, applyFmtps rt vals = some rm := by
  rw [applyFmtps]
  induction vals generalizing rt with
  | nil => exact ⟨rt, rfl⟩
  | cons v vs ih =>
    obtain ⟨a, rest, hv⟩ := h v (List.mem_cons_self v vs)
    have hsp : splitFirst ' ' v = some (intToStr a, rest) := by
      rw [hv]
      exact splitFirst_append _ (not_mem_of_all_digits_space (intToStr_chars a))
    rw [List.foldlM_cons]
    simp only [hsp, pyInt_intToStr, Option.map_some', Option.bind_eq_bind,
      Option.some_bind]
    exact ih _ (fun v hv => h v (List.mem_cons_of_mem _ hv))

theorem extractCodecs_good (m : MediaDescription)
    (hrt : ∀ v ∈ attrsGet m.attributes "rtpmap".data,
      ∃ a nm r, v = intToStr a ++ ' ' :: (nm ++ '/' :: intToStr r) ∧ '/' ∉ nm)
    (hfm : ∀ v ∈ attrsGet m.attributes "fmtp".data,
      ∃ a rest, v = intToStr a ++ ' ' :: rest) :
    ∃ cs, extractCodecs m = some cs := by
  obtain ⟨rm, hrm⟩ := extractRtpmaps_good _ hrt
  obtain ⟨rm2, hrm2⟩ := applyFmtps_good rm _ hfm
  rw [← Option.isSome_iff_exists, extractCodecs]
  simp [hrm, hrm2, Option.bind]

theorem codecName_fst_no_slash (chosen : Codec) (r0 : Int)
    (hname : '/' ∉ chosen.encoding_name) :
    '/' ∉ (if chosen.encoding_name = [] then
        match wellKnownCodec chosen.payload_type with
        | some (nm, rt, _) => (nm, rt)
        | none => (chosen.encoding_name, r0)
      else (chosen.encoding_name, r0)).1 := by
  split_ifs with h
  · split
    · rename_i nm rt snd heq
      exact wellKnownCodec_name_slash heq
    · exact hname
  · exact hname

theorem negotiate_media_extract_ok (chosenPt : Int) (proto : Str) (rtp_port : Int)
    (dtmfPt aPtime codecRate : Int) (codecName : Str) (hname : '/' ∉ codecName)
    (includeDtmf : Bool) (answerDir : Str)
    (hdir : answerDir = "sendrecv".data ∨ answerDir = "recvonly".data ∨
      answerDir = "sendonly".data ∨ answerDir = "inactive".data) :
    ∃ cs, extractCodecs
      { media := "audio".data, port := rtp_port, proto := proto,
        formats := intToStr chosenPt :: (if includeDtmf then [intToStr dtmfPt] else []),
        connection := none, bandwidths := [],
        attributes :=
          ("rtpmap".data,
            (intToStr chosenPt ++ ' ' :: (codecName ++ '/' :: intToStr codecRate)) ::
              (if includeDtmf then
                [intToStr dtmfPt ++ " telephone-event/8000".data] else [])) ::
            ((if includeDtmf then
                [("fmtp".data, [intToStr dtmfPt ++ " 0-16".data])] else [])
              ++ [("ptime".data, [intToStr aPtime]), (answerDir, [])]),
        codecs := [] } = some cs := by
  have hno : ∀ (k0 : Str) (vs : List Str) (rest : Attrs) (k : Str), k0 ≠ k →
      attrsGet ((k0, vs) :: rest) k = attrsGet rest k := fun k0 vs rest k h =>
    attrsGet_cons_ne k0 k vs rest h
  apply extractCodecs_good
  · intro v hv
    simp only [attrsGet_cons_eq] at hv
    rcases List.mem_cons.1 hv with h1 | h1
    · exact ⟨chosenPt, codecName, codecRate, h1, hname⟩
    · cases includeDtmf with
      | false => exact absurd h1 (by simp)
      | true =>
        simp only [if_true, List.mem_singleton] at h1
        refine ⟨dtmfPt, "telephone-event".data, 8000, ?_, by decide⟩
        rw [h1]
        exact congrArg (fun t => intToStr dtmfPt ++ t) (by decide)
  · intro v hv
    simp only [hno "rtpmap".data _ _ "fmtp".data (by decide)] at hv
    cases includeDtmf with
    | true =>
      simp only [if_true, List.cons_append, attrsGet_cons_eq, List.mem_singleton] at hv
      refine ⟨dtmfPt, "0-16".data, ?_⟩
      rw [hv]
    | false =>
      rw [if_neg (by decide), List.nil_append,
        hno "ptime".data _ _ "fmtp".data (by decide)] at hv
      rcases hdir with hd | hd | hd | hd <;> subst hd
      · rw [hno "sendrecv".data _ _ "fmtp".data (by decide)] at hv
        exact absurd hv (by simp [attrsGet])
      · rw [hno "recvonly".data _ _ "fmtp".data (by decide)] at hv
        exact absurd hv (by simp [attrsGet])
      · rw [hno "sendonly".data _ _ "fmtp".data (by decide)] at hv
        exact absurd hv (by simp [attrsGet])
      · rw [hno "inactive".data _ _ "fmtp".data (by decide)] at hv
        exact absurd hv (by simp [attrsGet])

theorem chosenNameRate_fst_no_slash (chosen : Codec)
    (hname : '/' ∉ chosen.encoding_name) : '/' ∉ (chosenNameRate chosen).1 := by
  rw [chosenNameRate]
  exact codecName_fst_no_slash chosen _ hname

/-- An offered codec whose rtpmap encoding name itself contains a slash;
`negotiate_sdp` writes it into the answer rtpmap and then chokes re-parsing
it in `_extract_codecs`. -/
def c1BadCodec : Codec :=
  { payload_type := 0, encoding_name := "PCMU/x".data, clock_rate := 8000 }

/-- Audio media section carrying `c1BadCodec`. -/
def c1BadAudio : MediaDescription :=
  { media := "audio".data, port := 4000, formats := ["0".data],
    codecs := [c1BadCodec] }

/-- Offer with one audio media whose only codec is `c1BadCodec`. -/
def c1BadOffer : SdpMessage := { media := [c1BadAudio] }

/-- C1 counterexample: an offer satisfying the claim hypotheses (an audio
media is present and its first codec has payload type 0 ∈ supported) on
which `negotiate_sdp` does not return at all: it raises an uncaught
`ValueError` from `_extract_codecs`, because the chosen codec's encoding
name `"PCMU/x"` contains a slash and the answer rtpmap `"PCMU/x/8000"`
splits into three fields. -/
theorem claim_C1_counterexample :
    sdpAudio c1BadOffer = some c1BadAudio ∧
    c1BadAudio.codecs.find?
      (fun c => ((none : Option (List Int)).getD [0, 8]).contains c.payload_type)
        = some c1BadCodec ∧
    negotiateSdp c1BadOffer "10.0.0.1".data 4000 none 101 20 (some "1".data) "1".data
      = Except.error NegErr.valueError := by decide

/-- Success of `negotiate_sdp` on a good offer: first supported codec is
chosen and heads the answer's audio formats. -/
theorem negotiateSdp_ok_of_good
    (offer : SdpMessage) (local_ip : Str) (rtp_port : Int)
    (supported_codecs : Option (List Int)) (dtmf_payload_type ptime : Int)
    (session_id : Option Str) (now : Str)
    (audio : MediaDescription) (chosen : Codec)
    (haudio : sdpAudio offer = some audio)
    (hfind : audio.codecs.find?
      (fun c => (supported_codecs.getD [0, 8]).contains c.payload_type) = some chosen)
    (hname : '/' ∉ chosen.encoding_name) :
    ∃ answer am rest,
      negotiateSdp offer local_ip rtp_port supported_codecs dtmf_payload_type
          ptime session_id now = .ok (answer, chosen.payload_type) ∧
      answer.media = [am] ∧ am.media = "audio".data ∧
      am.formats = intToStr chosen.payload_type :: rest := by
  rw [negotiateSdp]
  simp only [haudio, hfind, bind, Except.bind, pure, Except.pure, List.cons_append]
  obtain ⟨cs, hcs⟩ := negotiate_media_extract_ok chosen.payload_type audio.proto rtp_port
    dtmf_payload_type (answerPtimeOf audio ptime) (chosenNameRate chosen).2
    (chosenNameRate chosen).1 (chosenNameRate_fst_no_slash chosen hname)
    ((offerDtmfPtOf audio).isSome && decide (dtmf_payload_type > 0))
    (directionAnswer (mdDirection audio)) (directionAnswer_cases _)
  rw [hcs]
  exact ⟨_, _, _, rfl, rfl, rfl, rfl⟩

/-- C1 (amended): if the offer has an audio media whose codec list contains
a codec with supported payload type, and additionally the first such
codec's encoding name is slash-free (otherwise `negotiate_sdp` raises
`ValueError`, see the counterexample), then `negotiate_sdp` returns that
first codec's payload type as `chosen_payload_type` and the answer's single
audio media's format list begins with it. -/
theorem claim_C1_amended_first_supported_codec
    (offer : SdpMessage) (local_ip : Str) (rtp_port : Int)
    (supported_codecs : Option (List Int)) (dtmf_payload_type ptime : Int)
    (session_id : Option Str) (now : Str)
    (audio : MediaDescription) (chosen : Codec)
    (haudio : sdpAudio offer = some audio)
    (hfind : audio.codecs.find?
      (fun c => (supported_codecs.getD [0, 8]).contains c.payload_type) = some chosen)
    (hname : '/' ∉ chosen.encoding_name) :
    ∃ answer am rest,
      negotiateSdp offer local_ip rtp_port supported_codecs dtmf_payload_type
          ptime session_id now = .ok (answer, chosen.payload_type) ∧
      answer.media = [am] ∧ am.media = "audio".data ∧
      am.formats = intToStr chosen.payload_type :: rest :=
  negotiateSdp_ok_of_good offer local_ip rtp_port supported_codecs dtmf_payload_type
    ptime session_id now audio chosen haudio hfind hname

/-- A well-formed PCMA codec for the C1 witness. -/
def c1GoodCodec : Codec :=
  { payload_type := 8, encoding_name := "PCMA".data, clock_rate := 8000 }

/-- Audio media section carrying `c1GoodCodec`. -/
def c1GoodAudio : MediaDescription :=
  { media := "audio".data, port := 4000, formats := ["8".data],
    codecs := [c1GoodCodec] }

/-- Offer with one audio media whose only codec is `c1GoodCodec`. -/
def c1GoodOffer : SdpMessage := { media := [c1GoodAudio] }

/-- Witness for the amended C1 at a concrete PCMA offer. -/
theorem claim_C1_witness :
    ∃ answer am rest,
      negotiateSdp c1GoodOffer "10.0.0.1".data 4000 none 101 20 (some "1".data)
          "1".data = .ok (answer, c1GoodCodec.payload_type) ∧
      answer.media = [am] ∧ am.media = "audio".data ∧
      am.formats = intToStr c1GoodCodec.payload_type :: rest :=
  claim_C1_amended_first_supported_codec c1GoodOffer "10.0.0.1".data 4000 none 101 20
    (some "1".data) "1".data c1GoodAudio c1GoodCodec (by decide) (by decide) (by decide)

/-- An offered G.729 codec whose encoding name contains a slash. -/
def c4BadCodec : Codec :=
  { payload_type := 18, encoding_name := "G729/A".data, clock_rate := 8000 }

/-- Audio media section carrying `c4BadCodec`. -/
def c4BadAudio : MediaDescription :=
  { media := "audio".data, port := 5000, formats := ["18".data],
    codecs := [c4BadCodec] }

/-- Offer with one audio media whose only codec is `c4BadCodec`. -/
def c4BadOffer : SdpMessage := { media := [c4BadAudio] }

/-- C4 counterexample: the claim says `negotiate_sdp` raises no exception
other than `SdpNegotiationError`, but on this offer (audio present, codec
payload type 18 supported) it raises an uncaught `ValueError` from
`_extract_codecs`, because the chosen encoding name `"G729/A"` contains a
slash. -/
theorem claim_C4_counterexample :
    negotiateSdp c4BadOffer "10.0.0.2".data 5000 (some [18]) 101 20 (some "7".data)
      "7".data = Except.error NegErr.valueError := by decide

/-- C4 (amended): `negotiate_sdp` raises `SdpNegotiationError` iff the offer
has no audio media or no codec of the first audio media has a supported
payload type; and in the remaining case it raises no exception at all
provided the chosen codec's encoding name is slash-free (without that
proviso a `ValueError` escapes, see the counterexample). -/
theorem claim_C4_amended_error_conditions
    (offer : SdpMessage) (local_ip : Str) (rtp_port : Int)
    (supported_codecs : Option (List Int)) (dtmf_payload_type ptime : Int)
    (session_id : Option Str) (now : Str) :
    ((∃ msg, negotiateSdp offer local_ip rtp_port supported_codecs dtmf_payload_type
        ptime session_id now = .error (.sdpNegotiationError msg)) ↔
      (sdpAudio offer = none ∨
        ∃ a, sdpAudio offer = some a ∧
          a.codecs.find?
            (fun c => (supported_codecs.getD [0, 8]).contains c.payload_type)
              = none)) ∧
    (∀ a chosen, sdpAudio offer = some a →
      a.codecs.find?
        (fun c => (supported_codecs.getD [0, 8]).contains c.payload_type)
          = some chosen →
      '/' ∉ chosen.encoding_name →
      ∃ res, negotiateSdp offer local_ip rtp_port supported_codecs dtmf_payload_type
        ptime session_id now = .ok res) := by
  constructor
  · constructor
    · rintro ⟨msg, h⟩
      cases ha : sdpAudio offer with
      | none => exact Or.inl rfl
      | some a =>
        cases hf : a.codecs.find?
            (fun c => (supported_codecs.getD [0, 8]).contains c.payload_type) with
        | none => exact Or.inr ⟨a, rfl, hf⟩
        | some chosen =>
          rw [negotiateSdp] at h
          simp only [ha, hf, bind, Except.bind, pure, Except.pure] at h
          split at h
          · exact absurd h (by simp)
          · exact absurd h (by simp)
    · rintro (ha | ⟨a, ha, hf⟩)
      · refine ⟨"Offer contains no audio media".data, ?_⟩
        rw [negotiateSdp]
        simp only [ha, bind, Except.bind, throw, throwThe, MonadExceptOf.throw]
      · refine ⟨"No matching codec found".data, ?_⟩
        rw [negotiateSdp]
        simp only [ha, hf, bind, Except.bind, pure, Except.pure, throw, throwThe,
          MonadExceptOf.throw]
  · intro a chosen ha hf hname
    obtain ⟨answer, am, rest, h, -, -, -⟩ :=
      negotiateSdp_ok_of_good offer local_ip rtp_port supported_codecs
        dtmf_payload_type ptime session_id now a chosen ha hf hname
    exact ⟨(answer, chosen.payload_type), h⟩

/-- Witness for the amended C4: an empty offer has no audio media, and the
theorem's equivalence yields the `SdpNegotiationError`. -/
theorem claim_C4_witness :
    ∃ msg, negotiateSdp ({} : SdpMessage) "10.0.0.2".data 5000 (some [18]) 101 20
      (some "7".data) "7".data = Except.error (NegErr.sdpNegotiationError msg) :=
  (claim_C4_amended_error_conditions {} "10.0.0.2".data 5000 (some [18]) 101 20
    (some "7".data) "7".data).1.mpr (Or.inl (by decide))

theorem createDialogFromRequest_fields (request : SipMessage) (tag : Str)
    (lu : Option Str) (d : Dialog)
    (h : createDialogFromRequest request tag lu = some d) :
    d.local_tag = tag ∧ d.state = .early ∧
      d.call_id = (msgCallId request).getD [] := by
  simp only [createDialogFromRequest, bind, Option.bind_eq_some, Option.pure_def,
    Option.some_inj] at h
  obtain ⟨fa, -, h⟩ := h
  cases lu with
  | some lu0 =>
    simp only [Option.bind_eq_some, Option.some_inj] at h
    obtain ⟨x, -, cs, -, cq, -, h⟩ := h
    subst h
    exact ⟨rfl, rfl, rfl⟩
  | none =>
    simp only [Option.bind_eq_some, Option.some_inj] at h
    obtain ⟨ta, -, h⟩ := h
    cases ta with
    | some t =>
      simp only [Option.bind_eq_some, Option.some_inj] at h
      obtain ⟨u, -, cs, -, cq, -, h⟩ := h
      subst h
      exact ⟨rfl, rfl, rfl⟩
    | none =>
      simp only [Option.bind_eq_some, Option.some_inj] at h
      obtain ⟨u, -, cs, -, cq, -, h⟩ := h
      subst h
      exact ⟨rfl, rfl, rfl⟩

/-- An established EARLY dialog for the C10 call table. -/
def c10Dialog0 : Dialog := { call_id := "A".data, local_tag := "t0".data }

/-- The INVITE stored with the existing EARLY call. -/
def c10OldInvite : SipMessage :=
  { start := .request "INVITE".data "sip:bob".data,
    headers := [⟨"call-id".data, "Call-ID".data, ["A".data]⟩] }

/-- The existing unanswered (EARLY) call under Call-ID `A`. -/
def c10Existing : IncomingCall := { dialog := c10Dialog0, invite := c10OldInvite }

/-- Call table holding the EARLY call. -/
def c10Calls : CallTable := [("A".data, c10Existing)]

/-- A second INVITE for Call-ID `A` whose CSeq sequence number is not an
integer. -/
def c10BadRequest : SipMessage :=
  { start := .request "INVITE".data "sip:bob".data,
    headers := [⟨"call-id".data, "Call-ID".data, ["A".data]⟩,
                ⟨"cseq".data, "CSeq".data, ["x INVITE".data]⟩] }

/-- C10 counterexample: an INVITE whose Call-ID matches an existing EARLY
call but whose CSeq is malformed.  `create_dialog_from_request` raises
`ValueError` out of `parse_cseq`, so the handler neither replaces the
stored call nor sends 100 Trying nor fires `on_invite` — the claim promises
all three for every such INVITE. -/
theorem claim_C10_counterexample :
    dictFind c10Calls ((msgCallId c10BadRequest).getD []) = some c10Existing ∧
    c10Existing.dialog.state = .early ∧
    handleInvite c10Calls c10BadRequest ("1.1.1.1".data, 5060)
      ("2.2.2.2".data, 5060) "newtag".data = none := by decide

/-- C10 (amended): an INVITE whose Call-ID matches an existing EARLY (not
yet answered) call is treated as a brand-new call — provided dialog
creation and SDP parsing succeed (otherwise the handler raises, see the
counterexample): a fresh EARLY dialog carrying the newly generated local
tag is created, the stored `IncomingCall` for that Call-ID is replaced
in place, another 100 Trying is emitted, and `on_invite` fires again. -/
theorem claim_C10_amended_early_is_new_call
    (calls : CallTable) (request : SipMessage) (addr localAddr : Addr)
    (freshTag : Str) (existing : IncomingCall) (dlg : Dialog)
    (off : Option SdpMessage)
    (hex : dictFind calls ((msgCallId request).getD []) = some existing)
    (hstate : existing.dialog.state = .early)
    (hdlg : createDialogFromRequest request freshTag none = some dlg)
    (hsdp : (if request.body ≠ [] ∧ msgContentType request
            = some "application/sdp".data
        then (parseSdp request.body).map some else pure none) = some off) :
    ∃ call : IncomingCall,
      call = { dialog := dlg, invite := request, sdp_offer := off,
               source_addr := addr } ∧
      dlg.local_tag = freshTag ∧ dlg.state = .early ∧
      handleInvite calls request addr localAddr freshTag =
        some (dictSet calls ((msgCallId request).getD []) call,
          [UasEvent.reply (callTrying call localAddr), UasEvent.onInvite call]) := by
  obtain ⟨htag, hdst, -⟩ := createDialogFromRequest_fields request freshTag none dlg hdlg
  refine ⟨_, rfl, htag, hdst, ?_⟩
  rw [handleInvite]
  simp only [hex]
  rw [if_neg (by rw [hstate]; decide)]
  rw [handleInviteNew]
  simp only [hdlg, bind, Option.some_bind, Option.pure_def, Option.some_inj]
  by_cases hc : request.body ≠ [] ∧ msgContentType request
      = some "application/sdp".data
  · rw [if_pos hc] at hsdp ⊢
    obtain ⟨s, hps, hoff⟩ := Option.map_eq_some'.1 hsdp
    rw [hps, ← hoff]
    rfl
  · rw [if_neg hc] at hsdp ⊢
    cases hsdp
    rfl

/-- A well-formed second INVITE for Call-ID `A`. -/
def c10GoodRequest : SipMessage :=
  { start := .request "INVITE".data "sip:bob".data,
    headers := [⟨"call-id".data, "Call-ID".data, ["A".data]⟩,
                ⟨"cseq".data, "CSeq".data, ["1 INVITE".data]⟩] }

/-- The dialog `create_dialog_from_request` builds for `c10GoodRequest`. -/
def c10NewDialog : Dialog :=
  { call_id := "A".data, local_tag := "newtag".data,
    local_uri := "sip:bob".data, remote_cseq := 1 }

/-- Witness for the amended C10 at the concrete EARLY-call table. -/
theorem claim_C10_witness :
    ∃ call : IncomingCall,
      call = { dialog := c10NewDialog, invite := c10GoodRequest, sdp_offer := none,
               source_addr := ("1.1.1.1".data, 5060) } ∧
      c10NewDialog.local_tag = "newtag".data ∧ c10NewDialog.state = .early ∧
      handleInvite c10Calls c10GoodRequest ("1.1.1.1".data, 5060)
          ("2.2.2.2".data, 5060) "newtag".data =
        some (dictSet c10Calls ((msgCallId c10GoodRequest).getD []) call,
          [UasEvent.reply (callTrying call ("2.2.2.2".data, 5060)),
           UasEvent.onInvite call]) :=
  claim_C10_amended_early_is_new_call c10Calls c10GoodRequest
    ("1.1.1.1".data, 5060) ("2.2.2.2".data, 5060) "newtag".data c10Existing
    c10NewDialog none (by decide) (by decide) (by decide) (by decide)

/-! ## Helper lemmas: URI round-trip (characters and stripping) -/

theorem isPyWs_iff (x : Char) : isPyWs x = true ↔
    (x.toNat = 32 ∨ x.toNat = 9 ∨ x.toNat = 10 ∨ x.toNat = 13 ∨
     x.toNat = 11 ∨ x.toNat = 12) := by
  constructor
  · intro h
    rw [isPyWs] at h
    simp only [Bool.or_eq_true, decide_eq_true_eq] at h
    rcases h with ((((h | h) | h) | h) | h) | h <;> (subst h; decide)
  · intro h
    rcases h with h | h | h | h | h | h
    · rw [char_toNat_inj (h.trans (show 32 = Char.toNat ' ' by decide))]; decide
    · rw [char_toNat_inj (h.trans (show 9 = Char.toNat '\t' by decide))]; decide
    · rw [char_toNat_inj (h.trans (show 10 = Char.toNat '\n' by decide))]; decide
    · rw [char_toNat_inj (h.trans (show 13 = Char.toNat '\r' by decide))]; decide
    · rw [char_toNat_inj (h.trans (show 11 = Char.toNat '\x0b' by decide))]; decide
    · rw [char_toNat_inj (h.trans (show 12 = Char.toNat '\x0c' by decide))]; decide

theorem isPyWs_asciiLower (c : Char) : isPyWs (asciiLower c) = isPyWs c := by
  have h := toNat_asciiLower c
  by_cases hc : 65 ≤ c.toNat ∧ c.toNat ≤ 90
  · rw [if_pos hc] at h
    have h1 : isPyWs (asciiLower c) = false :=
      Bool.eq_false_iff.2 (fun ht => by have := (isPyWs_iff _).1 ht; omega)
    have h2 : isPyWs c = false :=
      Bool.eq_false_iff.2 (fun ht => by have := (isPyWs_iff _).1 ht; omega)
    rw [h1, h2]
  · rw [if_neg hc] at h
    rw [char_toNat_inj h]

theorem not_mem_lowerStr {x : Char} {s : Str}
    (hx : x.toNat < 97 ∨ 122 < x.toNat) (h : x ∉ s) : x ∉ lowerStr s := by
  intro hm
  obtain ⟨y, hy, hxy⟩ := List.mem_map.1 hm
  have ht := toNat_asciiLower y
  rw [hxy] at ht
  by_cases hc : 65 ≤ y.toNat ∧ y.toNat ≤ 90
  · rw [if_pos hc] at ht
    omega
  · rw [if_neg hc] at ht
    exact h (char_toNat_inj ht ▸ hy)

theorem mem_pyStrip {x : Char} {s : Str} (h : x ∈ pyStrip s) : x ∈ s := by
  rw [pyStrip, List.mem_reverse] at h
  have h1 := (List.dropWhile_sublist (l := (s.dropWhile isPyWs).reverse)
    (p := isPyWs)).mem h
  rw [List.mem_reverse] at h1
  exact (List.dropWhile_sublist (l := s) (p := isPyWs)).mem h1

theorem dropWhile_cons_self {p : Char → Bool} {x : Char} {xs : Str}
    (h : List.dropWhile p (x :: xs) = x :: xs) : p x = false := by
  have := List.dropWhile_eq_self_iff.1 h (by simp)
  simpa using this

theorem dropWhile_cons_of_neg' {p : Char → Bool} {x : Char} {xs : Str}
    (h : p x = false) : List.dropWhile p (x :: xs) = x :: xs :=
  List.dropWhile_cons_of_neg (by simp [h])

theorem dropWhile_head_false {p : Char → Bool} {l t : Str} {x : Char}
    (h : List.dropWhile p l = x :: t) : p x = false := by
  induction l with
  | nil => exact absurd h (by simp)
  | cons y ys ih =>
    rw [List.dropWhile_cons] at h
    split at h
    · exact ih h
    · rename_i hy
      obtain ⟨h1, -⟩ := List.cons_eq_cons.1 h
      subst h1
      simpa using hy

theorem dropWhile_idem (p : Char → Bool) (l : Str) :
    List.dropWhile p (List.dropWhile p l) = List.dropWhile p l := by
  cases hd : List.dropWhile p l with
  | nil => rfl
  | cons x t => exact dropWhile_cons_of_neg' (dropWhile_head_false hd)

theorem pyStrip_eq_self_iff (s : Str) : pyStrip s = s ↔
    (List.dropWhile isPyWs s = s ∧
     List.dropWhile isPyWs s.reverse = s.reverse) := by
  constructor
  · intro h
    rw [pyStrip] at h
    have hs1 := List.dropWhile_sublist (p := isPyWs) (l := s)
    have hs2 := List.dropWhile_sublist (p := isPyWs)
      (l := (s.dropWhile isPyWs).reverse)
    have hl1 := hs1.length_le
    have hl2 := hs2.length_le
    have hlen : (List.dropWhile isPyWs
        (s.dropWhile isPyWs).reverse).length = s.length := by
      rw [← List.length_reverse (List.dropWhile isPyWs
        (s.dropWhile isPyWs).reverse), h]
    rw [List.length_reverse] at hl2
    have he1 : List.dropWhile isPyWs s = s := hs1.eq_of_length (by omega)
    refine ⟨he1, ?_⟩
    have he2 := hs2.eq_of_length (by rw [List.length_reverse]; omega)
    rw [he1] at he2
    exact he2
  · rintro ⟨h1, h2⟩
    rw [pyStrip, h1, h2, List.reverse_reverse]

theorem pyStrip_idem (s : Str) : pyStrip (pyStrip s) = pyStrip s := by
  refine (pyStrip_eq_self_iff _).2 ⟨?_, ?_⟩
  · cases hp : pyStrip s with
    | nil => rfl
    | cons x t =>
      refine dropWhile_cons_of_neg' ?_
      rw [pyStrip] at hp
      have hpre : (List.dropWhile isPyWs (s.dropWhile isPyWs).reverse).reverse
          <+: s.dropWhile isPyWs := by
        have h1 := List.reverse_prefix.2
          (List.dropWhile_suffix (l := (s.dropWhile isPyWs).reverse) isPyWs)
        rw [List.reverse_reverse] at h1
        exact h1
      rw [hp] at hpre
      obtain ⟨rest, hrest⟩ := hpre
      rw [List.cons_append] at hrest
      exact dropWhile_head_false hrest.symm
  · cases hp : (pyStrip s).reverse with
    | nil => rfl
    | cons x t =>
      refine dropWhile_cons_of_neg' ?_
      rw [pyStrip, List.reverse_reverse] at hp
      exact dropWhile_head_false hp

theorem pyStrip_mid {m : Char} (hm : isPyWs m = false) {a b : Str}
    (ha : pyStrip a = a) (hb : pyStrip b = b) :
    pyStrip (a ++ m :: b) = a ++ m :: b := by
  have hrev : (a ++ m :: b).reverse = b.reverse ++ m :: a.reverse := by
    simp [List.reverse_append]
  refine (pyStrip_eq_self_iff _).2 ⟨?_, ?_⟩
  · cases a with
    | nil => exact dropWhile_cons_of_neg' hm
    | cons x a' =>
      have hx := dropWhile_cons_self ((pyStrip_eq_self_iff _).1 ha).1
      rw [List.cons_append]
      exact dropWhile_cons_of_neg' hx
  · rw [hrev]
    cases hbr : b.reverse with
    | nil => exact dropWhile_cons_of_neg' hm
    | cons z r' =>
      have hz := ((pyStrip_eq_self_iff _).1 hb).2
      rw [hbr] at hz
      rw [List.cons_append]
      exact dropWhile_cons_of_neg' (dropWhile_cons_self hz)

theorem pyStrip_lowerStr (s : Str) :
    pyStrip (lowerStr s) = lowerStr (pyStrip s) := by
  have hfun : (isPyWs ∘ asciiLower) = isPyWs := funext isPyWs_asciiLower
  rw [pyStrip, pyStrip, lowerStr, List.dropWhile_map, hfun, ← List.map_reverse,
    List.dropWhile_map, hfun, ← List.map_reverse]
  rfl

theorem splitFirst_eq_some {c : Char} {s a b : Str}
    (h : splitFirst c s = some (a, b)) : s = a ++ c :: b ∧ c ∉ a := by
  induction s generalizing a b with
  | nil => exact absurd h (by simp [splitFirst])
  | cons x xs ih =>
    rw [splitFirst] at h
    split_ifs at h with hx
    · obtain ⟨h1, h2⟩ := Prod.mk.injEq .. ▸ Option.some_inj.1 h
      subst hx h2
      rw [← h1]
      exact ⟨rfl, by simp⟩
    · revert h
      split
      · rename_i a' b' heq
        intro h
        obtain ⟨h1, h2⟩ := Prod.mk.injEq .. ▸ Option.some_inj.1 h
        obtain ⟨hs, hna⟩ := ih heq
        subst h2
        rw [← h1, hs]
        exact ⟨rfl, by
          intro hc
          rcases List.mem_cons.1 hc with h3 | h3
          · exact hx h3.symm
          · exact hna h3⟩
      · intro h
        exact absurd h (by simp)

theorem splitFirst_eq_none {c : Char} {s : Str}
    (h : splitFirst c s = none) : c ∉ s := by
  induction s with
  | nil => simp
  | cons x xs ih =>
    rw [splitFirst] at h
    split_ifs at h with hx
    · revert h
      split
      · intro h
        exact absurd h (by simp)
      · rename_i heq
        intro h hm
        rcases List.mem_cons.1 hm with h1 | h1
        · exact hx h1.symm
        · exact ih heq h1

theorem splitLast_append {c : Char} (a : Str) {b : Str} (h : c ∉ b) :
    splitLast c (a ++ c :: b) = some (a, b) := by
  rw [splitLast]
  have hrev : (a ++ c :: b).reverse = b.reverse ++ c :: a.reverse := by
    simp [List.reverse_append]
  rw [hrev, splitFirst_append _ (fun hm => h (List.mem_reverse.1 hm))]
  simp

theorem pySplit_pieces {c : Char} (s : Str) : ∀ p ∈ pySplit c s, c ∉ p := by
  induction s with
  | nil =>
    intro p hp
    rw [pySplit] at hp
    rw [List.mem_singleton.1 hp]
    simp
  | cons x xs ih =>
    intro p hp
    rw [pySplit] at hp
    split_ifs at hp with hx
    · rcases List.mem_cons.1 hp with h1 | h1
      · rw [h1]; simp
      · exact ih p h1
    · revert hp
      split
      · rename_i p0 ps heq
        intro hp
        rcases List.mem_cons.1 hp with h1 | h1
        · rw [h1]
          intro hm
          rcases List.mem_cons.1 hm with h2 | h2
          · exact hx h2.symm
          · exact ih p0 (heq ▸ List.mem_cons_self p0 ps) h2
        · exact ih p (heq ▸ List.mem_cons_of_mem p0 h1)
      · rename_i heq
        exact absurd heq (pySplit_ne_nil c xs)

theorem pySplit_joinSep {c : Char} (L : List Str) (hL : L ≠ [])
    (h : ∀ p ∈ L, c ∉ p) : pySplit c (joinSep c L) = L := by
  induction L with
  | nil => exact absurd rfl hL
  | cons x xs ih =>
    cases xs with
    | nil => exact pySplit_of_not_mem (h x (List.mem_singleton_self x))
    | cons y ys =>
      rw [joinSep, pySplit_append _ (h x (List.mem_cons_self x _)),
        ih (by simp) (fun p hp => h p (List.mem_cons_of_mem x hp))]

theorem mem_dictSet {α β : Type} [DecidableEq α] {d : List (α × β)} {k : α}
    {v : β} {p : α × β} (h : p ∈ dictSet d k v) : p ∈ d ∨ p = (k, v) := by
  induction d with
  | nil =>
    rw [dictSet, List.mem_singleton] at h
    exact Or.inr h
  | cons q rest ih =>
    obtain ⟨k0, v0⟩ := q
    rw [dictSet] at h
    split_ifs at h with hk
    · rcases List.mem_cons.1 h with h1 | h1
      · subst hk h1
        exact Or.inr rfl
      · exact Or.inl (List.mem_cons_of_mem (k0, v0) h1)
    · rcases List.mem_cons.1 h with h1 | h1
      · exact Or.inl (h1 ▸ List.mem_cons_self (k0, v0) rest)
      · rcases ih h1 with h2 | h2
        · exact Or.inl (List.mem_cons_of_mem (k0, v0) h2)
        · exact Or.inr h2

theorem dictSet_of_not_mem_keys {α β : Type} [DecidableEq α] {d : List (α × β)}
    {k : α} (v : β) (h : k ∉ d.map Prod.fst) : dictSet d k v = d ++ [(k, v)] := by
  induction d with
  | nil => rfl
  | cons q rest ih =>
    obtain ⟨k0, v0⟩ := q
    rw [List.map_cons] at h
    have hne : ¬(k0 = k) :=
      fun he => h (he ▸ List.mem_cons_self k0 (rest.map Prod.fst))
    rw [dictSet, if_neg hne,
      ih (fun hm => h (List.mem_cons_of_mem k0 hm)), List.cons_append]

theorem dictSet_keys_of_mem {α β : Type} [DecidableEq α] {d : List (α × β)}
    {k : α} (v : β) (h : k ∈ d.map Prod.fst) :
    (dictSet d k v).map Prod.fst = d.map Prod.fst := by
  induction d with
  | nil => exact absurd h (by simp)
  | cons q rest ih =>
    obtain ⟨k0, v0⟩ := q
    rw [dictSet]
    split_ifs with hk
    · simp
    · rw [List.map_cons, List.map_cons, ih]
      rw [List.map_cons] at h
      rcases List.mem_cons.1 h with h1 | h1
      · exact absurd h1.symm hk
      · exact h1

theorem dictSet_keys_nodup {α β : Type} [DecidableEq α] {d : List (α × β)}
    {k : α} (v : β) (h : (d.map Prod.fst).Nodup) :
    ((dictSet d k v).map Prod.fst).Nodup := by
  by_cases hk : k ∈ d.map Prod.fst
  · rw [dictSet_keys_of_mem v hk]
    exact h
  · rw [dictSet_of_not_mem_keys v hk, List.map_append]
    simp only [List.map_cons, List.map_nil]
    refine List.Nodup.append h (List.nodup_singleton k) ?_
    intro a ha hb
    rw [List.mem_singleton] at hb
    exact hk (hb ▸ ha)

theorem not_mem_intToStr {x : Char} (hd : isDigitChar x = false)
    (hm : x ≠ '-') (i : Int) : x ∉ intToStr i := by
  intro h
  rcases intToStr_chars i x h with h1 | h1
  · rw [hd] at h1
    exact absurd h1 (by simp)
  · exact hm h1

/-! ## Helper lemmas: URI round-trip (parser invariants) -/

/-- Invariant of every parameter pair produced by `parse_params`. -/
def PrmOk (p : Str × Option Str) : Prop :=
  lowerStr p.1 = p.1 ∧ pyStrip p.1 = p.1 ∧ ';' ∉ p.1 ∧ '?' ∉ p.1 ∧ '=' ∉ p.1 ∧
  (p.2 = none → p.1 ≠ []) ∧
  (∀ w, p.2 = some w → pyStrip w = w ∧ ';' ∉ w ∧ '?' ∉ w)

/-- Invariant of every URI-header pair produced by `parse_uri`. -/
def HdrOk (p : Str × Str) : Prop := '&' ∉ p.1 ∧ '=' ∉ p.1 ∧ '&' ∉ p.2

/-- Invariant of every `SipUri` produced by `parse_uri`: exactly what is
needed for `stringify_uri` to serialize it unambiguously. -/
def UriOk (u : SipUri) : Prop :=
  (u.scheme = "sip".data ∨ u.scheme = "sips".data) ∧
  (∀ us, u.user = some us → '@' ∉ us ∧ '?' ∉ us ∧ ';' ∉ us) ∧
  (u.user = none → '@' ∉ u.host) ∧
  '?' ∉ u.host ∧ ';' ∉ u.host ∧
  (headIs '[' u.host = true →
    (∃ pre, u.host = pre ++ [']'] ∧ ']' ∉ pre) ∨
      (']' ∉ u.host ∧ u.port = none)) ∧
  (headIs '[' u.host = false → u.port = none →
    ∀ hp pp, splitLast ':' u.host = some (hp, pp) → pyInt pp = none) ∧
  (∀ p ∈ u.params, PrmOk p) ∧ (u.params.map Prod.fst).Nodup ∧
  (∀ p ∈ u.headers, HdrOk p) ∧ (u.headers.map Prod.fst).Nodup

theorem splitLast_eq_some {c : Char} {s a b : Str}
    (h : splitLast c s = some (a, b)) : s = a ++ c :: b ∧ c ∉ b := by
  rw [splitLast] at h
  revert h
  cases hsp : splitFirst c s.reverse with
  | none => intro h; exact absurd h (by simp)
  | some pq =>
    obtain ⟨p, q⟩ := pq
    intro h
    simp only [Option.some_inj, Prod.mk.injEq] at h
    obtain ⟨ha, hb⟩ := h
    obtain ⟨hs, hnp⟩ := splitFirst_eq_some hsp
    have hs2 := congrArg List.reverse hs
    rw [List.reverse_reverse] at hs2
    subst ha hb
    constructor
    · rw [hs2]
      simp [List.reverse_append]
    · intro hm
      exact hnp (by simpa using hm)

theorem splitLast_of_not_mem {c : Char} {s : Str} (h : c ∉ s) :
    splitLast c s = none := by
  rw [splitLast, splitFirst_of_not_mem (fun hm => h (List.mem_reverse.1 hm))]

theorem mem_of_mem_pySplit {c x : Char} {s p : Str}
    (hp : p ∈ pySplit c s) (hx : x ∈ p) : x ∈ s := by
  induction s generalizing p with
  | nil =>
    rw [pySplit, List.mem_singleton] at hp
    subst hp
    exact absurd hx (by simp)
  | cons y ys ih =>
    rw [pySplit] at hp
    split_ifs at hp with hy
    · rcases List.mem_cons.1 hp with h1 | h1
      · subst h1
        exact absurd hx (by simp)
      · exact List.mem_cons_of_mem y (ih h1 hx)
    · revert hp
      split
      · rename_i p0 ps heq
        intro hp
        rcases List.mem_cons.1 hp with h1 | h1
        · subst h1
          rcases List.mem_cons.1 hx with h2 | h2
          · exact h2 ▸ List.mem_cons_self y ys
          · exact List.mem_cons_of_mem y
              (ih (heq ▸ List.mem_cons_self p0 ps) h2)
        · exact List.mem_cons_of_mem y (ih (heq ▸ List.mem_cons_of_mem p0 h1) hx)
      · rename_i heq
        exact absurd heq (pySplit_ne_nil c ys)

theorem hdrFold_ok (pieces : List Str) (hq : ∀ q ∈ pieces, '&' ∉ q) :
    ∀ acc : List (Str × Str), (∀ p ∈ acc, HdrOk p) → (acc.map Prod.fst).Nodup →
      (∀ p ∈ pieces.foldl hdrStep acc, HdrOk p) ∧
        ((pieces.foldl hdrStep acc).map Prod.fst).Nodup := by
  induction pieces with
  | nil => exact fun acc h1 h2 => ⟨h1, h2⟩
  | cons q rest ih =>
    intro acc h1 h2
    rw [List.foldl_cons]
    refine ih (fun x hx => hq x (List.mem_cons_of_mem q hx)) (hdrStep acc q) ?_ ?_
    · intro p hp
      cases hsp : splitFirst '=' q with
      | none =>
        rw [hdrStep, hsp] at hp
        exact h1 p hp
      | some kv =>
        obtain ⟨hk, hv⟩ := kv
        simp only [hdrStep, hsp] at hp
        rcases mem_dictSet hp with h3 | h3
        · exact h1 p h3
        · subst h3
          obtain ⟨hsq, hnk⟩ := splitFirst_eq_some hsp
          have hq' := hq q (List.mem_cons_self q rest)
          rw [hsq] at hq'
          refine ⟨fun hm => hq' (List.mem_append_left _ hm), hnk, fun hm => hq' ?_⟩
          exact List.mem_append_right _ (List.mem_cons_of_mem _ hm)
    · cases hsp : splitFirst '=' q with
      | none =>
        rw [hdrStep, hsp]
        exact h2
      | some kv =>
        obtain ⟨hk, hv⟩ := kv
        simp only [hdrStep, hsp]
        exact dictSet_keys_nodup _ h2

theorem uriHeadersOf_ok (hp : Str) : (∀ p ∈ uriHeadersOf hp, HdrOk p) ∧
    ((uriHeadersOf hp).map Prod.fst).Nodup := by
  rw [uriHeadersOf]
  exact hdrFold_ok _ (pySplit_pieces hp) [] (by simp) (by simp)

theorem paramFold_ok (pieces : List Str)
    (hq : ∀ q ∈ pieces, ';' ∉ q ∧ '?' ∉ q) :
    ∀ acc : List (Str × Option Str), (∀ p ∈ acc, PrmOk p) →
      (acc.map Prod.fst).Nodup →
      (∀ p ∈ pieces.foldl paramStep acc, PrmOk p) ∧
        ((pieces.foldl paramStep acc).map Prod.fst).Nodup := by
  induction pieces with
  | nil => exact fun acc h1 h2 => ⟨h1, h2⟩
  | cons q rest ih =>
    intro acc h1 h2
    rw [List.foldl_cons]
    obtain ⟨hqs, hqq⟩ := hq q (List.mem_cons_self q rest)
    have hsub : ∀ x ∈ pyStrip q, x ∈ q := fun x hx => mem_pyStrip hx
    refine ih (fun x hx => hq x (List.mem_cons_of_mem q hx)) (paramStep acc q) ?_ ?_
    · intro p hp
      rw [paramStep] at hp
      split_ifs at hp with he
      · exact h1 p hp
      · revert hp
        cases hsp : splitFirst '=' (pyStrip q) with
        | some kv =>
          obtain ⟨k, v⟩ := kv
          intro hp
          rcases mem_dictSet hp with h3 | h3
          · exact h1 p h3
          · subst h3
            obtain ⟨hsq, hnk⟩ := splitFirst_eq_some hsp
            have hkq : ∀ x ∈ pyStrip k, x ∈ q := fun x hx =>
              hsub x (hsq ▸ List.mem_append_left _ (mem_pyStrip hx))
            have hvq : ∀ x ∈ pyStrip v, x ∈ q := fun x hx =>
              hsub x (hsq ▸ List.mem_append_right _
                (List.mem_cons_of_mem _ (mem_pyStrip hx)))
            refine ⟨lowerStr_idem _, ?_, ?_, ?_, ?_, ?_, ?_⟩
            · rw [pyStrip_lowerStr, pyStrip_idem]
            · exact not_mem_lowerStr (by decide)
                (fun hm => hqs (hkq _ hm))
            · exact not_mem_lowerStr (by decide)
                (fun hm => hqq (hkq _ hm))
            · exact not_mem_lowerStr (by decide)
                (fun hm => hnk (mem_pyStrip hm))
            · intro hno
              exact absurd hno (by simp)
            · intro w hw
              obtain rfl : pyStrip v = w := Option.some_inj.1 hw
              exact ⟨pyStrip_idem v, fun hm => hqs (hvq _ hm),
                fun hm => hqq (hvq _ hm)⟩
        | none =>
          intro hp
          rcases mem_dictSet hp with h3 | h3
          · exact h1 p h3
          · subst h3
            have hne : '=' ∉ pyStrip q := splitFirst_eq_none hsp
            refine ⟨lowerStr_idem _, ?_, ?_, ?_, ?_, ?_, ?_⟩
            · rw [pyStrip_lowerStr, pyStrip_idem]
            · exact not_mem_lowerStr (by decide) (fun hm => hqs (hsub _ hm))
            · exact not_mem_lowerStr (by decide) (fun hm => hqq (hsub _ hm))
            · exact not_mem_lowerStr (by decide) hne
            · intro hno hnil
              exact he (List.map_eq_nil_iff.1 hnil)
            · intro w hw
              exact absurd hw (by simp)
    · rw [paramStep]
      split_ifs with he
      · exact h2
      · cases hsp : splitFirst '=' (pyStrip q) with
        | some kv =>
          obtain ⟨k, v⟩ := kv
          simp only [hsp]
          exact dictSet_keys_nodup _ h2
        | none =>
          simp only [hsp]
          exact dictSet_keys_nodup _ h2

theorem parseParams_ok (str : Str) (hq : '?' ∉ str) :
    (∀ p ∈ parseParams str, PrmOk p) ∧
      ((parseParams str).map Prod.fst).Nodup := by
  rw [parseParams]
  refine paramFold_ok _ (fun q hqm => ⟨pySplit_pieces str q hqm, ?_⟩) []
    (by simp) (by simp)
  exact fun hm => hq (mem_of_mem_pySplit hqm hm)

theorem uriSchemeSplit_fst (s : Str) :
    (uriSchemeSplit s).1 = "sip".data ∨ (uriSchemeSplit s).1 = "sips".data := by
  rw [uriSchemeSplit]
  cases h : splitFirst ':' s with
  | none => exact Or.inl rfl
  | some pq =>
    obtain ⟨pre, post⟩ := pq
    dsimp only
    split_ifs with hc
    · exact hc
    · exact Or.inl rfl

theorem uriHeaderSplit_fst (rest : Str) :
    '?' ∉ (uriHeaderSplit rest).1 ∧ ∀ x ∈ (uriHeaderSplit rest).1, x ∈ rest := by
  rw [uriHeaderSplit]
  cases h : splitFirst '?' rest with
  | none => exact ⟨splitFirst_eq_none h, fun x hx => hx⟩
  | some pq =>
    obtain ⟨pre, post⟩ := pq
    obtain ⟨hs, hn⟩ := splitFirst_eq_some h
    exact ⟨hn, fun x hx => hs ▸ List.mem_append_left _ hx⟩

theorem uriHeaderSplit_snd (rest : Str) :
    (∀ p ∈ (uriHeaderSplit rest).2, HdrOk p) ∧
      (((uriHeaderSplit rest).2).map Prod.fst).Nodup := by
  rw [uriHeaderSplit]
  cases h : splitFirst '?' rest with
  | none => exact ⟨by simp, by simp⟩
  | some pq =>
    obtain ⟨pre, post⟩ := pq
    exact uriHeadersOf_ok post

theorem uriParamSplit_fst (r : Str) :
    ';' ∉ (uriParamSplit r).1 ∧ ∀ x ∈ (uriParamSplit r).1, x ∈ r := by
  rw [uriParamSplit]
  cases h : splitFirst ';' r with
  | none => exact ⟨splitFirst_eq_none h, fun x hx => hx⟩
  | some pq =>
    obtain ⟨pre, post⟩ := pq
    obtain ⟨hs, hn⟩ := splitFirst_eq_some h
    exact ⟨hn, fun x hx => hs ▸ List.mem_append_left _ hx⟩

theorem uriParamSplit_snd (r : Str) (hq : '?' ∉ r) :
    (∀ p ∈ (uriParamSplit r).2, PrmOk p) ∧
      (((uriParamSplit r).2).map Prod.fst).Nodup := by
  rw [uriParamSplit]
  cases h : splitFirst ';' r with
  | none => exact ⟨by simp, by simp⟩
  | some pq =>
    obtain ⟨pre, post⟩ := pq
    obtain ⟨hs, hn⟩ := splitFirst_eq_some h
    refine parseParams_ok post (fun hm => hq ?_)
    rw [hs]
    exact List.mem_append_right _ (List.mem_cons_of_mem _ hm)

theorem uriUserSplit_some {b us hp : Str}
    (h : uriUserSplit b = (some us, hp)) :
    ('@' ∉ us ∧ ∀ x ∈ us, x ∈ b) ∧ ∀ x ∈ hp, x ∈ b := by
  rw [uriUserSplit] at h
  revert h
  cases hsp : splitFirst '@' b with
  | none =>
    intro h
    exact absurd (congrArg Prod.fst h) (by simp)
  | some pq =>
    obtain ⟨u0, hp0⟩ := pq
    intro h
    simp only [Prod.mk.injEq, Option.some_inj] at h
    obtain ⟨h1, h2⟩ := h
    subst h1 h2
    obtain ⟨hs, hn⟩ := splitFirst_eq_some hsp
    exact ⟨⟨hn, fun x hx => hs ▸ List.mem_append_left _ hx⟩,
      fun x hx => hs ▸ List.mem_append_right _ (List.mem_cons_of_mem _ hx)⟩

theorem uriUserSplit_none {b hp : Str}
    (h : uriUserSplit b = (none, hp)) : hp = b ∧ '@' ∉ b := by
  rw [uriUserSplit] at h
  revert h
  cases hsp : splitFirst '@' b with
  | none =>
    intro h
    simp only [Prod.mk.injEq] at h
    exact ⟨h.2.symm, splitFirst_eq_none hsp⟩
  | some pq =>
    obtain ⟨u0, hp0⟩ := pq
    intro h
    exact absurd (congrArg Prod.fst h) (by simp)

theorem uriHostPort_props {hostport host : Str} {port : Option Int}
    (h : uriHostPort hostport = some (host, port)) :
    (∀ x ∈ host, x ∈ hostport) ∧
    (headIs '[' host = true →
      (∃ pre, host = pre ++ [']'] ∧ ']' ∉ pre) ∨
        (']' ∉ host ∧ port = none)) ∧
    (headIs '[' host = false → port = none →
      ∀ hp pp, splitLast ':' host = some (hp, pp) → pyInt pp = none) := by
  rw [uriHostPort] at h
  split_ifs at h with hbr hcol
  · revert h
    cases hsq : splitFirst ']' hostport with
    | some pq =>
      obtain ⟨pre, post⟩ := pq
      dsimp only
      obtain ⟨hs, hn⟩ := splitFirst_eq_some hsq
      have hhead : headIs '[' (pre ++ [']']) = true := by
        cases hp0 : pre with
        | nil =>
          rw [hp0] at hs
          rw [hs] at hbr
          exact absurd hbr (by simp [headIs])
        | cons x pre' =>
          rw [hp0] at hs
          rw [hs] at hbr
          simp only [List.cons_append, headIs, decide_eq_true_eq] at hbr
          subst hbr
          simp [headIs]
      have hmem : ∀ y ∈ pre ++ [']'], y ∈ hostport := by
        intro y hy
        rw [hs]
        rcases List.mem_append.1 hy with h1 | h1
        · exact List.mem_append_left _ h1
        · rw [List.mem_singleton.1 h1]
          exact List.mem_append_right _ (List.mem_cons_self _ _)
      have hdone : ∀ pt : Option Int, (pre ++ [']'], pt) = (host, port) →
          (∀ x ∈ host, x ∈ hostport) ∧
          (headIs '[' host = true →
            (∃ pre2, host = pre2 ++ [']'] ∧ ']' ∉ pre2) ∨
              (']' ∉ host ∧ port = none)) ∧
          (headIs '[' host = false → port = none →
            ∀ hp pp, splitLast ':' host = some (hp, pp) → pyInt pp = none) := by
        intro pt heq
        obtain ⟨hh, hpp⟩ := Prod.mk.injEq .. ▸ heq
        subst hh hpp
        refine ⟨hmem, fun _ => Or.inl ⟨pre, rfl, hn⟩, ?_⟩
        intro hfalse
        rw [hhead] at hfalse
        exact absurd hfalse (by simp)
      cases post with
      | cons c tail =>
        rw [bracketPost]
        split_ifs with hcc
        · intro h
          obtain ⟨n, hn2, heq⟩ := Option.map_eq_some'.1 h
          exact hdone (some n) heq
        · intro h
          exact hdone none (Option.some_inj.1 h)
      | nil =>
        rw [bracketPost]
        intro h
        exact hdone none (Option.some_inj.1 h)
    | none =>
      dsimp only
      intro h
      obtain ⟨hh, hpp⟩ := Prod.mk.injEq .. ▸ Option.some_inj.1 h
      subst hh hpp
      exact ⟨fun y hy => hy,
        fun _ => Or.inr ⟨splitFirst_eq_none hsq, rfl⟩,
        fun hfalse => absurd hfalse (by rw [hbr]; simp)⟩
  · revert h
    cases hsl : splitLast ':' hostport with
    | some pq =>
      obtain ⟨hp0, pp0⟩ := pq
      dsimp only
      obtain ⟨hs, hn⟩ := splitLast_eq_some hsl
      cases hpi : pyInt pp0 with
      | some n =>
        dsimp only
        intro h
        obtain ⟨hh, hpp⟩ := Prod.mk.injEq .. ▸ Option.some_inj.1 h
        subst hh hpp
        refine ⟨fun y hy => hs ▸ List.mem_append_left _ hy, ?_, ?_⟩
        · intro htrue
          exfalso
          cases hcc : hp0 with
          | nil =>
            rw [hcc] at htrue
            exact absurd htrue (by simp [headIs])
          | cons z t =>
            rw [hcc] at hs htrue
            rw [hs] at hbr
            simp only [List.cons_append, headIs, decide_eq_true_eq] at hbr htrue
            exact hbr htrue
        · intro h1 h2
          exact absurd h2 (by simp)
      | none =>
        dsimp only
        intro h
        obtain ⟨hh, hpp⟩ := Prod.mk.injEq .. ▸ Option.some_inj.1 h
        subst hh hpp
        refine ⟨fun y hy => hy, ?_, ?_⟩
        · intro htrue
          rw [htrue] at hbr
          exact absurd hbr (by simp)
        · intro h1 h2 hp pp hsome
          rw [hsl] at hsome
          obtain ⟨hh2, hpp2⟩ := Prod.mk.injEq .. ▸ Option.some_inj.1 hsome
          rw [← hpp2]
          exact hpi
    | none =>
      dsimp only
      intro h
      obtain ⟨hh, hpp⟩ := Prod.mk.injEq .. ▸ Option.some_inj.1 h
      subst hh hpp
      refine ⟨fun y hy => hy, ?_, ?_⟩
      · intro htrue
        rw [htrue] at hbr
        exact absurd hbr (by simp)
      · intro h1 h2 hp pp hsome
        rw [hsl] at hsome
        exact absurd hsome (by simp)
  · obtain ⟨hh, hpp⟩ := Prod.mk.injEq .. ▸ Option.some_inj.1 h
    subst hh hpp
    have hnc : ':' ∉ hostport := by
      intro hm
      rw [hasChar] at hcol
      simp only [List.any_eq_true, decide_eq_true_eq] at hcol
      exact hcol ⟨':', hm, rfl⟩
    refine ⟨fun y hy => hy, ?_, ?_⟩
    · intro htrue
      rw [htrue] at hbr
      exact absurd hbr (by simp)
    · intro h1 h2 hp pp hsome
      rw [splitLast_of_not_mem hnc] at hsome
      exact absurd hsome (by simp)

theorem parseUri_uriOk {s0 : Str} {u : SipUri} (h : parseUri s0 = some u) :
    UriOk u := by
  rw [parseUri] at h
  rcases hss : uriSchemeSplit (pyStrip s0) with ⟨scheme, rest⟩
  rcases hhs : uriHeaderSplit rest with ⟨rest1, uriHeaders⟩
  rcases hps : uriParamSplit rest1 with ⟨base, params⟩
  rcases hus : uriUserSplit base with ⟨user, hostport⟩
  simp only [hss, hhs, hps, hus, bind, Option.bind_eq_some] at h
  obtain ⟨⟨host, port⟩, hhp, heq⟩ := h
  simp only [Option.pure_def, Option.some_inj] at heq
  subst heq
  rw [UriOk]
  dsimp only
  have hscheme := uriSchemeSplit_fst (pyStrip s0)
  rw [hss] at hscheme
  have hhf := uriHeaderSplit_fst rest
  rw [hhs] at hhf
  obtain ⟨hr1q, -⟩ := hhf
  have hhsnd := uriHeaderSplit_snd rest
  rw [hhs] at hhsnd
  have hpf := uriParamSplit_fst rest1
  rw [hps] at hpf
  obtain ⟨hbs, hbsub⟩ := hpf
  have hpsnd := uriParamSplit_snd rest1 hr1q
  rw [hps] at hpsnd
  obtain ⟨hmemhp, hbrk, hnbrk⟩ := uriHostPort_props hhp
  have hhpbase : ∀ x ∈ hostport, x ∈ base := by
    cases huser : user with
    | some us =>
      rw [huser] at hus
      exact (uriUserSplit_some hus).2
    | none =>
      rw [huser] at hus
      obtain ⟨he, -⟩ := uriUserSplit_none hus
      rw [he]
      exact fun x hx => hx
  have hhostbase : ∀ x ∈ host, x ∈ base := fun x hx => hhpbase x (hmemhp x hx)
  refine ⟨hscheme, ?_, ?_, ?_, ?_, hbrk, hnbrk, hpsnd.1, hpsnd.2,
    hhsnd.1, hhsnd.2⟩
  · intro us huser
    rw [huser] at hus
    obtain ⟨⟨hat, husub⟩, -⟩ := uriUserSplit_some hus
    exact ⟨hat, fun hm => hr1q (hbsub _ (husub _ hm)),
      fun hm => hbs (husub _ hm)⟩
  · intro huser
    rw [huser] at hus
    obtain ⟨he, hat⟩ := uriUserSplit_none hus
    exact fun hm => hat (he ▸ hhostbase _ hm)
  · exact fun hm => hr1q (hbsub _ (hhostbase _ hm))
  · exact fun hm => hbs (hhostbase _ hm)

/-! ## Helper lemmas: URI round-trip (serialization and reparsing) -/

theorem mem_joinSep {x c : Char} {L : List Str} (h : x ∈ joinSep c L) :
    x = c ∨ ∃ p ∈ L, x ∈ p := by
  induction L with
  | nil => exact absurd h (by simp [joinSep])
  | cons a as ih =>
    cases as with
    | nil => exact Or.inr ⟨a, List.mem_singleton_self a, h⟩
    | cons b bs =>
      rw [joinSep] at h
      rcases List.mem_append.1 h with h1 | h1
      · exact Or.inr ⟨a, List.mem_cons_self a _, h1⟩
      · rcases List.mem_cons.1 h1 with h2 | h2
        · exact Or.inl h2
        · rcases ih h2 with h3 | ⟨p, hp, hx⟩
          · exact Or.inl h3
          · exact Or.inr ⟨p, List.mem_cons_of_mem a hp, hx⟩

theorem mem_paramPiece {x : Char} {kv : Str × Option Str}
    (h : x ∈ paramPiece kv) :
    x ∈ kv.1 ∨ x = '=' ∨ ∃ w, kv.2 = some w ∧ x ∈ w := by
  obtain ⟨k, v⟩ := kv
  cases v with
  | none => exact Or.inl h
  | some w =>
    rw [paramPiece] at h
    rcases List.mem_append.1 h with h1 | h1
    · exact Or.inl h1
    · rcases List.mem_cons.1 h1 with h2 | h2
      · exact Or.inr (Or.inl h2)
      · exact Or.inr (Or.inr ⟨w, rfl, h2⟩)

theorem mem_headerPiece {x : Char} {kv : Str × Str} (h : x ∈ headerPiece kv) :
    x ∈ kv.1 ∨ x = '=' ∨ x ∈ kv.2 := by
  rw [headerPiece] at h
  rcases List.mem_append.1 h with h1 | h1
  · exact Or.inl h1
  · rcases List.mem_cons.1 h1 with h2 | h2
    · exact Or.inr (Or.inl h2)
    · exact Or.inr (Or.inr h2)

theorem foldl_sep_emit {α : Type} (c : Char) (g : α → Str) (L : List α) :
    ∀ acc : Str, L.foldl (fun a x => a ++ c :: g x) acc =
      acc ++ (L.map (fun x => c :: g x)).flatten := by
  induction L with
  | nil => intro acc; simp
  | cons x xs ih =>
    intro acc
    rw [List.foldl_cons, ih, List.map_cons, List.flatten_cons, List.append_assoc]

theorem flatten_sep_join {α : Type} (c : Char) (g : α → Str) (L : List α)
    (h : L ≠ []) :
    (L.map (fun x => c :: g x)).flatten = c :: joinSep c (L.map g) := by
  induction L with
  | nil => exact absurd rfl h
  | cons x xs ih =>
    cases xs with
    | nil => simp [joinSep]
    | cons y ys =>
      rw [List.map_cons, List.flatten_cons, ih (by simp)]
      rfl

theorem paramsEmit_nil : paramsEmit [] = [] := rfl

theorem paramsEmit_cons (ps : List (Str × Option Str)) (h : ps ≠ []) :
    paramsEmit ps = ';' :: joinSep ';' (ps.map paramPiece) := by
  rw [paramsEmit, foldl_sep_emit, flatten_sep_join ';' paramPiece ps h]
  rfl

theorem mem_paramsEmit {x : Char} {ps : List (Str × Option Str)}
    (h : x ∈ paramsEmit ps) : x = ';' ∨ ∃ kv ∈ ps, x ∈ paramPiece kv := by
  cases hps : ps with
  | nil => rw [hps] at h; exact absurd h (by simp [paramsEmit_nil])
  | cons q qs =>
    rw [hps] at h
    rw [paramsEmit_cons (q :: qs) (by simp)] at h
    rcases List.mem_cons.1 h with h1 | h1
    · exact Or.inl h1
    · rcases mem_joinSep h1 with h2 | ⟨p, hp, hx⟩
      · exact Or.inl h2
      · obtain ⟨kv, hkv, hpe⟩ := List.mem_map.1 hp
        exact Or.inr ⟨kv, hkv, hpe ▸ hx⟩

theorem mem_userEmit {x : Char} {uo : Option Str} (h : x ∈ userEmit uo) :
    ∃ us, uo = some us ∧ (x ∈ us ∨ x = '@') := by
  cases uo with
  | none => exact absurd h (by simp [userEmit])
  | some us =>
    rw [userEmit] at h
    rcases List.mem_append.1 h with h1 | h1
    · exact ⟨us, rfl, Or.inl h1⟩
    · exact ⟨us, rfl, Or.inr (List.mem_singleton.1 h1)⟩

theorem mem_portEmit {x : Char} {po : Option Int} (h : x ∈ portEmit po) :
    x = ':' ∨ ∃ n, po = some n ∧ x ∈ intToStr n := by
  cases po with
  | none => exact absurd h (by simp [portEmit])
  | some n =>
    rw [portEmit] at h
    rcases List.mem_cons.1 h with h1 | h1
    · exact Or.inl h1
    · exact Or.inr ⟨n, rfl, h1⟩

theorem uriSchemeSplit_emit {scheme : Str} (R : Str)
    (h : scheme = "sip".data ∨ scheme = "sips".data) :
    uriSchemeSplit (scheme ++ ':' :: R) = (scheme, R) := by
  have hnc : ':' ∉ scheme := by
    rcases h with h | h <;> (subst h; decide)
  rw [uriSchemeSplit, splitFirst_append R hnc]
  have hlow : lowerStr scheme = scheme := by
    rcases h with h | h <;> (subst h; decide)
  dsimp only
  rw [hlow, if_pos h]

theorem uriHeaderSplit_none {rest : Str} (h : '?' ∉ rest) :
    uriHeaderSplit rest = (rest, []) := by
  rw [uriHeaderSplit, splitFirst_of_not_mem h]

theorem uriHeaderSplit_some {U : Str} (H : Str) (h : '?' ∉ U) :
    uriHeaderSplit (U ++ '?' :: H) = (U, uriHeadersOf H) := by
  rw [uriHeaderSplit, splitFirst_append H h]

theorem uriParamSplit_none {rest : Str} (h : ';' ∉ rest) :
    uriParamSplit rest = (rest, []) := by
  rw [uriParamSplit, splitFirst_of_not_mem h]

theorem uriParamSplit_some {B : Str} (P : Str) (h : ';' ∉ B) :
    uriParamSplit (B ++ ';' :: P) = (B, parseParams P) := by
  rw [uriParamSplit, splitFirst_append P h]

theorem uriUserSplit_emit_some {us : Str} (hp : Str) (h : '@' ∉ us) :
    uriUserSplit (us ++ '@' :: hp) = (some us, hp) := by
  rw [uriUserSplit, splitFirst_append hp h]

theorem uriUserSplit_emit_none {b : Str} (h : '@' ∉ b) :
    uriUserSplit b = (none, b) := by
  rw [uriUserSplit, splitFirst_of_not_mem h]

theorem hdrFold_rebuild (L : List (Str × Str)) (hok : ∀ p ∈ L, HdrOk p) :
    ∀ acc : List (Str × Str), (∀ k ∈ L.map Prod.fst, k ∉ acc.map Prod.fst) →
      (L.map Prod.fst).Nodup →
      (L.map headerPiece).foldl hdrStep acc = acc ++ L := by
  induction L with
  | nil => intro acc _ _; simp
  | cons q rest ih =>
    obtain ⟨k, v⟩ := q
    intro acc hdisj hnd
    rw [List.map_cons, List.foldl_cons]
    obtain ⟨hk1, hk2, hv1⟩ := hok (k, v) (List.mem_cons_self _ _)
    rw [List.map_cons, List.nodup_cons] at hnd
    obtain ⟨hknr, hndr⟩ := hnd
    have hstep : hdrStep acc (headerPiece (k, v)) = acc ++ [(k, v)] := by
      rw [show headerPiece (k, v) = k ++ '=' :: v from rfl]
      simp only [hdrStep, splitFirst_append v hk2]
      exact dictSet_of_not_mem_keys v
        (hdisj k (List.mem_cons_self k (rest.map Prod.fst)))
    rw [hstep, ih (fun p hp => hok p (List.mem_cons_of_mem _ hp))
      (acc ++ [(k, v)]) ?_ hndr]
    · rw [List.append_assoc]
      rfl
    · intro k2 hk2m
      rw [List.map_append]
      intro hmem
      rcases List.mem_append.1 hmem with h1 | h1
      · exact hdisj k2 (List.mem_cons_of_mem k hk2m) h1
      · simp only [List.map_cons, List.map_nil, List.mem_singleton] at h1
        exact hknr (h1 ▸ hk2m)

theorem uriHeadersOf_emit (L : List (Str × Str)) (hne : L ≠ [])
    (hok : ∀ p ∈ L, HdrOk p) (hnd : (L.map Prod.fst).Nodup) :
    uriHeadersOf (joinSep '&' (L.map headerPiece)) = L := by
  have hpieces : ∀ p ∈ L.map headerPiece, '&' ∉ p := by
    intro p hp hmem
    obtain ⟨kv, hkv, hpe⟩ := List.mem_map.1 hp
    obtain ⟨h1, h2, h3⟩ := hok kv hkv
    rcases mem_headerPiece (hpe ▸ hmem) with hm | hm | hm
    · exact h1 hm
    · exact absurd hm (by decide)
    · exact h3 hm
  rw [uriHeadersOf, pySplit_joinSep _ (by simpa using hne) hpieces,
    hdrFold_rebuild L hok [] (by simp) hnd, List.nil_append]

theorem prmFold_rebuild (L : List (Str × Option Str))
    (hok : ∀ p ∈ L, PrmOk p) :
    ∀ acc : List (Str × Option Str),
      (∀ k ∈ L.map Prod.fst, k ∉ acc.map Prod.fst) →
      (L.map Prod.fst).Nodup →
      (L.map paramPiece).foldl paramStep acc = acc ++ L := by
  induction L with
  | nil => intro acc _ _; simp
  | cons q rest ih =>
    obtain ⟨k, v⟩ := q
    intro acc hdisj hnd
    rw [List.map_cons, List.foldl_cons]
    obtain ⟨hlk, hpk, hsk, hqk, hek, hnonek, hvk⟩ := hok (k, v) (List.mem_cons_self _ _)
    rw [List.map_cons, List.nodup_cons] at hnd
    obtain ⟨hknr, hndr⟩ := hnd
    have hstep : paramStep acc (paramPiece (k, v)) = acc ++ [(k, v)] := by
      cases v with
      | some w =>
        obtain ⟨hpw, hsw, hqw⟩ := hvk w rfl
        have hpiece : paramPiece (k, some w) = k ++ '=' :: w := rfl
        have hstrip : pyStrip (k ++ '=' :: w) = k ++ '=' :: w :=
          pyStrip_mid (by decide) hpk hpw
        rw [hpiece, paramStep]
        simp only [hstrip, if_neg (show ¬(k ++ '=' :: w = []) by simp),
          splitFirst_append w hek]
        rw [hpk, hlk, hpw]
        exact dictSet_of_not_mem_keys (some w)
          (hdisj k (List.mem_cons_self k (rest.map Prod.fst)))
      | none =>
        have hpiece : paramPiece (k, none) = k := rfl
        rw [hpiece, paramStep]
        simp only [hpk, if_neg (show ¬(k = []) by simpa using hnonek rfl),
          splitFirst_of_not_mem hek]
        rw [hlk]
        exact dictSet_of_not_mem_keys none
          (hdisj k (List.mem_cons_self k (rest.map Prod.fst)))
    rw [hstep, ih (fun p hp => hok p (List.mem_cons_of_mem _ hp))
      (acc ++ [(k, v)]) ?_ hndr]
    · rw [List.append_assoc]
      rfl
    · intro k2 hk2m
      rw [List.map_append]
      intro hmem
      rcases List.mem_append.1 hmem with h1 | h1
      · exact hdisj k2 (List.mem_cons_of_mem k hk2m) h1
      · simp only [List.map_cons, List.map_nil, List.mem_singleton] at h1
        exact hknr (h1 ▸ hk2m)

theorem parseParams_emit (L : List (Str × Option Str)) (hne : L ≠ [])
    (hok : ∀ p ∈ L, PrmOk p) (hnd : (L.map Prod.fst).Nodup) :
    parseParams (joinSep ';' (L.map paramPiece)) = L := by
  have hpieces : ∀ p ∈ L.map paramPiece, ';' ∉ p := by
    intro p hp hmem
    obtain ⟨kv, hkv, hpe⟩ := List.mem_map.1 hp
    obtain ⟨h1, h2, h3, h4, h5, h6, h7⟩ := hok kv hkv
    rcases mem_paramPiece (hpe ▸ hmem) with hm | hm | ⟨w, hw, hm⟩
    · exact h3 hm
    · exact absurd hm (by decide)
    · exact (h7 w hw).2.1 hm
  rw [parseParams, pySplit_joinSep _ (by simpa using hne) hpieces,
    prmFold_rebuild L hok [] (by simp) hnd, List.nil_append]

theorem uriHostPort_emit {host : Str} {port : Option Int}
    (hbrk : headIs '[' host = true →
      (∃ pre, host = pre ++ [']'] ∧ ']' ∉ pre) ∨
        (']' ∉ host ∧ port = none))
    (hnbrk : headIs '[' host = false → port = none →
      ∀ hp pp, splitLast ':' host = some (hp, pp) → pyInt pp = none) :
    uriHostPort (host ++ portEmit port) = some (host, port) := by
  cases hport : port with
  | none =>
    rw [portEmit, List.append_nil, uriHostPort]
    cases hhd : headIs '[' host with
    | true =>
      rw [if_pos rfl]
      rcases hbrk hhd with ⟨pre, hpre, hn⟩ | ⟨hn, -⟩
      · rw [hpre, show pre ++ [']'] = pre ++ ']' :: [] from rfl,
          splitFirst_append [] hn]
        rfl
      · rw [splitFirst_of_not_mem hn]
    | false =>
      rw [if_neg (by decide)]
      cases hc : hasChar ':' host with
      | true =>
        rw [if_pos rfl]
        cases hsl : splitLast ':' host with
        | some pq =>
          obtain ⟨hp0, pp0⟩ := pq
          simp only [hnbrk hhd hport hp0 pp0 hsl]
        | none => rfl
      | false =>
        rw [if_neg (by decide)]
  | some n =>
    rw [portEmit, uriHostPort]
    have hnd : ':' ∉ intToStr n := not_mem_intToStr (by decide) (by decide) n
    cases hhd : headIs '[' host with
    | true =>
      rcases hbrk hhd with ⟨pre, hpre, hn⟩ | ⟨-, hnone⟩
      · have hpre2 : ∃ x pre2, pre = x :: pre2 ∧ x = '[' := by
          cases hp0 : pre with
          | nil =>
            rw [hp0] at hpre
            rw [hpre] at hhd
            exact absurd hhd (by simp [headIs])
          | cons x pre2 =>
            rw [hp0] at hpre
            rw [hpre] at hhd
            simp only [List.cons_append, headIs, decide_eq_true_eq] at hhd
            exact ⟨x, pre2, rfl, hhd⟩
        obtain ⟨x, pre2, hp0, hx⟩ := hpre2
        have hbig : headIs '[' (host ++ ':' :: intToStr n) = true := by
          rw [hpre, hp0, hx]
          simp [headIs]
        rw [if_pos hbig, hpre, List.append_assoc,
          show ([']'] : Str) ++ ':' :: intToStr n = ']' :: (':' :: intToStr n)
            from rfl]
        simp only [splitFirst_append _ hn]
        rw [show bracketPost pre (':' :: intToStr n) =
          (pyInt (intToStr n)).map (fun m => (pre ++ [']'], some m)) by
            rw [bracketPost, if_pos rfl]]
        rw [pyInt_intToStr]
        rfl
      · exact absurd hnone (by rw [hport]; simp)
    | false =>
      have hbig : headIs '[' (host ++ ':' :: intToStr n) = false := by
        cases host with
        | nil => simp [headIs]
        | cons z t =>
          rw [List.cons_append]
          rw [show headIs '[' (z :: t) = decide (z = '[') from rfl] at hhd
          rw [show headIs '[' (z :: (t ++ ':' :: intToStr n))
            = decide (z = '[') from rfl]
          exact hhd
      rw [if_neg (by rw [hbig]; decide)]
      have hcc : hasChar ':' (host ++ ':' :: intToStr n) = true := by
        rw [hasChar]
        simp only [List.any_eq_true, decide_eq_true_eq]
        exact ⟨':', List.mem_append_right _ (List.mem_cons_self _ _), rfl⟩
      rw [if_pos hcc]
      simp only [splitLast_append host hnd, pyInt_intToStr]

theorem uriUserSplit_emit (uo : Option Str) (hp : Str)
    (h1 : ∀ us, uo = some us → '@' ∉ us) (h2 : uo = none → '@' ∉ hp) :
    uriUserSplit (userEmit uo ++ hp) = (uo, hp) := by
  cases uo with
  | some us =>
    rw [userEmit, show (us ++ ['@']) ++ hp = us ++ '@' :: hp by simp]
    exact uriUserSplit_emit_some hp (h1 us rfl)
  | none =>
    rw [userEmit, List.nil_append]
    exact uriUserSplit_emit_none (h2 rfl)

theorem uriParamSplit_emit (B : Str) (ps : List (Str × Option Str))
    (hB : ';' ∉ B) (hok : ∀ p ∈ ps, PrmOk p) (hnd : (ps.map Prod.fst).Nodup) :
    uriParamSplit (B ++ paramsEmit ps) = (B, ps) := by
  cases hps : ps with
  | nil => rw [paramsEmit_nil, List.append_nil, uriParamSplit_none hB]
  | cons q qs =>
    rw [hps] at hok hnd
    rw [paramsEmit_cons (q :: qs) (by simp), uriParamSplit_some _ hB,
      parseParams_emit (q :: qs) (by simp) hok hnd]

theorem uriHeaderSplit_emit (U : Str) (hs : List (Str × Str))
    (hU : '?' ∉ U) (hok : ∀ p ∈ hs, HdrOk p) (hnd : (hs.map Prod.fst).Nodup) :
    uriHeaderSplit (U ++ headersEmit hs) = (U, hs) := by
  cases hhs : hs with
  | nil =>
    rw [headersEmit, if_pos rfl, List.append_nil, uriHeaderSplit_none hU]
  | cons q qs =>
    rw [hhs] at hok hnd
    rw [headersEmit, if_neg (by simp), uriHeaderSplit_some _ hU,
      uriHeadersOf_emit (q :: qs) (by simp) hok hnd]

theorem parseUri_stringifyUri {u : SipUri} (hok : UriOk u)
    (hstrip : pyStrip (stringifyUri u) = stringifyUri u) :
    parseUri (stringifyUri u) = some u := by
  obtain ⟨hsch, huser, hunone, hqh, hsh, hbrk, hnbrk, hprm, hprmnd, hhdr, hhdrnd⟩ :=
    hok
  have hq_user : '?' ∉ userEmit u.user := by
    intro hm
    obtain ⟨us, hus, h1 | h1⟩ := mem_userEmit hm
    · exact (huser us hus).2.1 h1
    · exact absurd h1 (by decide)
  have hs_user : ';' ∉ userEmit u.user := by
    intro hm
    obtain ⟨us, hus, h1 | h1⟩ := mem_userEmit hm
    · exact (huser us hus).2.2 h1
    · exact absurd h1 (by decide)
  have hq_port : '?' ∉ portEmit u.port := by
    intro hm
    rcases mem_portEmit hm with h1 | ⟨n, -, h1⟩
    · exact absurd h1 (by decide)
    · exact not_mem_intToStr (by decide) (by decide) n h1
  have hs_port : ';' ∉ portEmit u.port := by
    intro hm
    rcases mem_portEmit hm with h1 | ⟨n, -, h1⟩
    · exact absurd h1 (by decide)
    · exact not_mem_intToStr (by decide) (by decide) n h1
  have hat_port : '@' ∉ portEmit u.port := by
    intro hm
    rcases mem_portEmit hm with h1 | ⟨n, -, h1⟩
    · exact absurd h1 (by decide)
    · exact not_mem_intToStr (by decide) (by decide) n h1
  have hq_params : '?' ∉ paramsEmit u.params := by
    intro hm
    rcases mem_paramsEmit hm with h1 | ⟨kv, hkv, h1⟩
    · exact absurd h1 (by decide)
    · obtain ⟨-, -, -, hqk, -, -, hvk⟩ := hprm kv hkv
      rcases mem_paramPiece h1 with h2 | h2 | ⟨w, hw, h2⟩
      · exact hqk h2
      · exact absurd h2 (by decide)
      · exact (hvk w hw).2.2 h2
  have hqU : '?' ∉ userEmit u.user ++ (u.host ++ (portEmit u.port ++
      paramsEmit u.params)) := by
    intro hm
    rcases List.mem_append.1 hm with h1 | h1
    · exact hq_user h1
    rcases List.mem_append.1 h1 with h2 | h2
    · exact hqh h2
    rcases List.mem_append.1 h2 with h3 | h3
    · exact hq_port h3
    · exact hq_params h3
  have hsB : ';' ∉ userEmit u.user ++ (u.host ++ portEmit u.port) := by
    intro hm
    rcases List.mem_append.1 hm with h1 | h1
    · exact hs_user h1
    rcases List.mem_append.1 h1 with h2 | h2
    · exact hsh h2
    · exact hs_port h2
  have hS : stringifyUri u = u.scheme ++ ':' ::
      (userEmit u.user ++ (u.host ++ (portEmit u.port ++
        (paramsEmit u.params ++ headersEmit u.headers)))) := by
    rw [stringifyUri]
    simp [List.append_assoc]
  rw [parseUri, hstrip, hS]
  simp only [uriSchemeSplit_emit _ hsch]
  rw [show userEmit u.user ++ (u.host ++ (portEmit u.port ++
      (paramsEmit u.params ++ headersEmit u.headers))) =
    (userEmit u.user ++ (u.host ++ (portEmit u.port ++ paramsEmit u.params)))
      ++ headersEmit u.headers by simp [List.append_assoc]]
  simp only [uriHeaderSplit_emit _ _ hqU hhdr hhdrnd]
  rw [show userEmit u.user ++ (u.host ++ (portEmit u.port ++
      paramsEmit u.params)) =
    (userEmit u.user ++ (u.host ++ portEmit u.port)) ++ paramsEmit u.params
      by simp [List.append_assoc]]
  simp only [uriParamSplit_emit _ _ hsB hprm hprmnd]
  rw [show userEmit u.user ++ (u.host ++ portEmit u.port) =
    userEmit u.user ++ (u.host ++ portEmit u.port) from rfl]
  have hat_hp : u.user = none → '@' ∉ u.host ++ portEmit u.port := by
    intro hn hm
    rcases List.mem_append.1 hm with h1 | h1
    · exact hunone hn h1
    · exact hat_port h1
  simp only [uriUserSplit_emit u.user (u.host ++ portEmit u.port)
    (fun us hus => (huser us hus).1) hat_hp]
  simp only [uriHostPort_emit hbrk hnbrk, bind, Option.some_bind,
    Option.pure_def]

/-- C2 counterexample: the claim says the parse/stringify round-trip holds
for every parser output.  Parsing `"sip:h?b=1&a=2 &b=3"` merges the
duplicate URI-header key `b` and keeps the trailing space of `a`'s value
`"2 "`; re-parsing the stringified form strips that trailing space, so the
round-trip loses it. -/
theorem claim_C2_counterexample :
    (parseUri "sip:h?b=1&a=2 &b=3".data).bind
        (fun u => parseUri (stringifyUri u)) ≠
      parseUri "sip:h?b=1&a=2 &b=3".data := by decide

/-- C2 (amended): for every `SipUri` in the image of `parse_uri` whose
serialized form carries no leading or trailing whitespace (the only leak:
`parse_uri` starts with `str.strip()`, so a trailing space inside the last
URI-header value of a parser output does not survive re-parsing — see the
counterexample), `parse_uri (stringify_uri u)` returns exactly `u`. -/
theorem claim_C2_amended_roundtrip (s0 : Str) (u : SipUri)
    (hps : parseUri s0 = some u)
    (htail : pyStrip (stringifyUri u) = stringifyUri u) :
    parseUri (stringifyUri u) = some u :=
  parseUri_stringifyUri (parseUri_uriOk hps) htail

/-- Witness for the amended C2 at a full-featured concrete URI. -/
theorem claim_C2_witness :
    parseUri (stringifyUri
      { scheme := "sip".data, user := some "alice".data,
        host := "example.com".data, port := some 5060,
        params := [("transport".data, some "tcp".data)],
        headers := [("x".data, "1".data)] }) =
      some { scheme := "sip".data, user := some "alice".data,
             host := "example.com".data, port := some 5060,
             params := [("transport".data, some "tcp".data)],
             headers := [("x".data, "1".data)] } :=
  claim_C2_amended_roundtrip
    "sip:alice@example.com:5060;transport=tcp?x=1".data _ (by decide) (by decide)

end Aiosipua
